import Mathlib

/-!
Verification development for the multi-region Kubernetes cluster scheduler.

Shallow embedding of the scheduling core found in `src/system/schedule`:
`resource_types.py` (Pod / Node), `resource_model.py` (ResourceModel),
`cluster_state.py` (snapshot_cluster), `rfsa_optimizer.py` (RFSAOptimizer),
`sa_optimizer.py` (energy, SAOptimizer) and `scheduler.py` (Scheduler).

Conventions of the embedding:
* Python `float` values are modelled by `ℚ`.  The few places where the source
  can produce `float("inf")` or `nan` (the suitability computations) are
  modelled by the explicit type `QF` below, which mirrors IEEE semantics for
  the operations the source performs.
* Python dicts keyed by strings are modelled by association lists with unique
  keys; dict assignment is modelled by `insertPN` (for `pod2node`) and by
  `openNodeList` (for the node table).  `nodes` is a `Dict[str, Node]` in the
  source, so node names are unique by construction.
* `random.choice` / `random.sample` / `random.randint` are modelled by an
  explicit oracle (`Choices`): an index `i` into a list `l` selects
  `l.get? (i % l.length)`.
* Paths on which the source raises an uncaught exception (KeyError,
  ZeroDivisionError, `assert`) are modelled as `none` / total functions and
  are marked by a comment at each site; no theorem below depends on them.
-/

namespace Sched

attribute [local semireducible] Rat.add Rat.mul Rat.inv Rat.sub

/-- Python float with infinities and nan, for the suitability arithmetic. -/
inductive QF where
  | fin : ℚ → QF
  | pinf : QF
  | ninf : QF
  | nan : QF
deriving DecidableEq, Repr

namespace QF

/-- Negation of a Python float. -/
def neg : QF → QF
  | fin q => fin (-q)
  | pinf => ninf
  | ninf => pinf
  | nan => nan

/-- Addition of Python floats. -/
def add : QF → QF → QF
  | fin a, fin b => fin (a + b)
  | fin _, pinf => pinf
  | fin _, ninf => ninf
  | pinf, fin _ => pinf
  | ninf, fin _ => ninf
  | pinf, pinf => pinf
  | ninf, ninf => ninf
  | pinf, ninf => nan
  | ninf, pinf => nan
  | nan, _ => nan
  | _, nan => nan

/-- Subtraction of Python floats. -/
def sub (a b : QF) : QF := add a (neg b)

/-- Absolute value of a Python float. -/
def abs : QF → QF
  | fin q => fin |q|
  | pinf => pinf
  | ninf => pinf
  | nan => nan

/-- Division of Python floats.  Division by exact zero raises
`ZeroDivisionError` in the source; that path is modelled as `nan` and is not
relied on by any theorem. -/
def div : QF → QF → QF
  | fin a, fin b => if b = 0 then nan else fin (a / b)
  | fin _, pinf => fin 0
  | fin _, ninf => fin 0
  | pinf, fin b => if b = 0 then nan else if 0 < b then pinf else ninf
  | ninf, fin b => if b = 0 then nan else if 0 < b then ninf else pinf
  | pinf, pinf => nan
  | pinf, ninf => nan
  | ninf, pinf => nan
  | ninf, ninf => nan
  | nan, _ => nan
  | _, nan => nan

/-- Strict `<` on Python floats (`nan` compares false with everything). -/
def lt : QF → QF → Bool
  | fin a, fin b => decide (a < b)
  | fin _, pinf => true
  | ninf, fin _ => true
  | ninf, pinf => true
  | _, _ => false

/-- Equality test on Python floats (`nan != nan`). -/
def beqF : QF → QF → Bool
  | fin a, fin b => decide (a = b)
  | pinf, pinf => true
  | ninf, ninf => true
  | _, _ => false

end QF

/-- The suitability epsilon `1e-6` used throughout the source. -/
def epsSuit : ℚ := 1 / 1000000

/-- Python's `x / y if y else float("inf")` pattern for the cpu:mem ratio. -/
def rhoOf (cpu mem : ℚ) : QF := if mem = 0 then QF.pinf else QF.fin (cpu / mem)

/-- The suitability `abs(rho_pod - rho_node) / (rho_node + 1e-6)`. -/
def suitOf (rhoPod rhoNode : QF) : QF :=
  QF.div (QF.abs (QF.sub rhoPod rhoNode)) (QF.add rhoNode (QF.fin epsSuit))

/-- Pod (`resource_types.Pod`): requests-only demand, namespaced name,
`is_new` flag set by the scheduler for pods collected in the current cycle. -/
structure Pod where
  name : String
  ns : String
  cpu : ℚ
  mem : ℚ
  labels : List (String × String) := []
  is_new : Bool := false
deriving DecidableEq, Repr

/-- `Pod.full_name`, i.e. `namespace/name`. -/
def Pod.fullName (p : Pod) : String := p.ns ++ "/" ++ p.name

/-- Node (`resource_types.Node`). -/
structure Node where
  name : String
  region : String
  machine_type : String
  cpu_cap : ℚ
  mem_cap : ℚ
  cpu_used : ℚ
  mem_used : ℚ
  price : ℚ
  overhead_cpu : ℚ
  pods : List Pod
  is_existing : Bool
  usable_cpu_cap : ℚ
deriving DecidableEq, Repr

/-- `Node.DEFAULT_OVERHEAD_CPU`. -/
def DEFAULT_OVERHEAD_CPU : ℚ := 15 / 100

/-- `Node.SPECIAL_OVERHEAD_CPU` reserved for the node named `node-1`. -/
def SPECIAL_OVERHEAD_CPU : ℚ := 40 / 100

/-- `Node.__init__`: overhead is 0.40 for `node-1`, 0.15 otherwise, and 0 for
existing nodes; `usable_cpu_cap = max(0, cpu_cap - overhead_cpu)`. -/
def mkNode (name region machineType : String) (cpuCap memCap price : ℚ)
    (isExisting : Bool) : Node :=
  let overhead0 : ℚ :=
    if name = "node-1" then SPECIAL_OVERHEAD_CPU else DEFAULT_OVERHEAD_CPU
  let overhead : ℚ := if isExisting then 0 else overhead0
  { name := name, region := region, machine_type := machineType,
    cpu_cap := cpuCap, mem_cap := memCap, cpu_used := 0, mem_used := 0,
    price := price, overhead_cpu := overhead, pods := [],
    is_existing := isExisting, usable_cpu_cap := max 0 (cpuCap - overhead) }

/-- `Node.can_fit`. -/
def canFit (nd : Node) (p : Pod) : Bool :=
  decide (nd.cpu_used + p.cpu ≤ nd.usable_cpu_cap) &&
    decide (nd.mem_used + p.mem ≤ nd.mem_cap)

/-- `Node.add_pod(pod, record)`.  The source first asserts `can_fit`; callers
that catch the assertion check `canFit` explicitly before calling this.  When
`record` holds, any resident pod with the same `full_name` is removed before
appending. -/
def addPod (nd : Node) (p : Pod) (record : Bool) : Node :=
  { nd with
    cpu_used := nd.cpu_used + p.cpu,
    mem_used := nd.mem_used + p.mem,
    pods := if record then
        (nd.pods.filter (fun q => q.fullName ≠ p.fullName)) ++ [p]
      else nd.pods }

/-- `Node.rm_pod`: unconditionally subtracts the pod's demand and removes any
resident pod with the same `full_name`. -/
def rmPod (nd : Node) (p : Pod) : Node :=
  { nd with
    cpu_used := nd.cpu_used - p.cpu,
    mem_used := nd.mem_used - p.mem,
    pods := nd.pods.filter (fun q => q.fullName ≠ p.fullName) }

/-- `Node.util_ratio` (named `utilization` here). -/
def utilization (nd : Node) : ℚ :=
  if nd.usable_cpu_cap = 0 then 1 else nd.cpu_used / nd.usable_cpu_cap

/-- Plan (`resource_model.ResourceModel`): the node table (a dict keyed by
node name in the source, hence unique names) and the `pod2node` map. -/
structure Plan where
  nodes : List Node
  pod2node : List (String × String)
deriving DecidableEq, Repr

/-- Dict assignment `pod2node[k] = v`: unique keys, newest binding found
first by `List.lookup`. -/
def insertPN (k v : String) (m : List (String × String)) :
    List (String × String) :=
  (k, v) :: m.filter (fun e => e.1 ≠ k)

/-- Update the (unique) node with the given name. -/
def updateNodes (nodes : List Node) (target : String) (f : Node → Node) :
    List Node :=
  nodes.map (fun nd => if nd.name = target then f nd else nd)

/-- `ResourceModel.open_node`: dict assignment `nodes[node.name] = node`.
For a fresh name this appends; a colliding name is replaced. -/
def openNodeList (nodes : List Node) (nd : Node) : List Node :=
  (nodes.filter (fun x => x.name ≠ nd.name)) ++ [nd]

/-- `ResourceModel.open_node` on a plan. -/
def openNodePlan (plan : Plan) (nd : Node) : Plan :=
  { plan with nodes := openNodeList plan.nodes nd }

/-- `ResourceModel.close_node`: removes the node (the source asserts the node
is empty first; callers zero the resources before calling). -/
def closeNodePlan (plan : Plan) (name : String) : Plan :=
  { plan with nodes := plan.nodes.filter (fun x => x.name ≠ name) }

/-- `ResourceModel.move_pod(pod, src, dst)`: `src.rm_pod`, `dst.add_pod`,
then `pod2node[pod.full_name] = dst.name`. -/
def movePod (plan : Plan) (p : Pod) (src dst : String) : Plan :=
  { nodes := updateNodes (updateNodes plan.nodes src (fun nd => rmPod nd p))
      dst (fun nd => addPod nd p true),
    pod2node := insertPN p.fullName dst plan.pod2node }

/-- Oracle selection modelling `random.choice(l)`: always a valid index for a
nonempty list, `none` exactly when the list is empty. -/
def pick {α : Type} (l : List α) (i : Nat) : Option α := l.get? (i % l.length)

/-! ## Energy function (`sa_optimizer.energy`) -/

/-- `MAX_WORKER_NODES` (workers = all non-master nodes). -/
def MAX_WORKER_NODES : Nat := 6

/-- `MAX_CLUSTER_CPU` (total worker vCPU cap). -/
def MAX_CLUSTER_CPU : ℚ := 30

/-- The filter `nd.name != "master" and nd.name != "node-1"` used by the cost
and idle sums of `energy`. -/
def workerExt (nd : Node) : Bool :=
  decide (nd.name ≠ "master") && decide (nd.name ≠ "node-1")

/-- Cost term of `energy`: sum of prices over nodes other than `master` and
`node-1`. -/
def costSum (plan : Plan) : ℚ :=
  ((plan.nodes.filter workerExt).map (fun nd => nd.price)).sum

/-- Idle term of `energy`: sum of `(cpu_cap - cpu_used) / cpu_cap` over nodes
other than `master` and `node-1`. -/
def idleSum (plan : Plan) : ℚ :=
  ((plan.nodes.filter workerExt).map
    (fun nd => (nd.cpu_cap - nd.cpu_used) / nd.cpu_cap)).sum

/-- `total` in `energy`: the number of nodes other than `master`/`node-1`. -/
def totalWorkers (plan : Plan) : Nat := (plan.nodes.filter workerExt).length

/-- Distinct regions of the plan, in order of first appearance: the keys of
the `reg_hist` dict, which is built over ALL nodes of the plan. -/
def planRegions (plan : Plan) : List String :=
  (plan.nodes.map (fun nd => nd.region)).dedup

/-- Number of nodes (all nodes, `master` and `node-1` included) in region
`r`: the value lists of `reg_hist`. -/
def regionCount (plan : Plan) (r : String) : Nat :=
  (plan.nodes.filter (fun nd => decide (nd.region = r))).length

/-- Concentration term of `energy`:
`sum((len(v)/total) ** 2 for v in reg_hist.values()) if total else 1`.
Note that `reg_hist` is built over all nodes of the plan, `master` and
`node-1` included; only the divisor `total` excludes them. -/
def concSum (plan : Plan) : ℚ :=
  if totalWorkers plan = 0 then 1
  else ((planRegions plan).map
    (fun r => ((regionCount plan r : ℚ) / (totalWorkers plan : ℚ)) ^ 2)).sum

/-- `sa_optimizer.energy` with its default weights
`w_cost=1.0, w_idle=0.5, w_region=0.4, w_nodes=0.6`. -/
def energy (plan : Plan) : ℚ :=
  1 * costSum plan + (1 / 2) * idleSum plan + (2 / 5) * concSum plan +
    (3 / 5) * (totalWorkers plan : ℚ)

/-- A plan with the `master` and `node-1` entries removed (used to state the
claim that `energy` ignores those nodes). -/
def removeSpecial (plan : Plan) : Plan :=
  { plan with nodes := plan.nodes.filter workerExt }

/-! ## Container demand parsing

`_parse_cpu` accepts either plain cores or a millicore string ending in `m`;
`_parse_mem` accepts GiB / MiB / KiB suffixes or a plain number.  The decimal
literal itself is modelled by a rational together with its unit suffix. -/

/-- A CPU quantity string: numeric value plus whether it ends in `m`. -/
structure CpuQty where
  v : ℚ
  milli : Bool
deriving DecidableEq, Repr

/-- A memory quantity string: numeric value plus its unit suffix. -/
inductive MemUnit where
  | gi | mi | ki | plain
deriving DecidableEq, Repr

/-- A memory quantity string. -/
structure MemQty where
  v : ℚ
  unit : MemUnit
deriving DecidableEq, Repr

/-- `_parse_cpu`: millicores are divided by 1000. -/
def parseCpu (q : CpuQty) : ℚ := if q.milli then q.v / 1000 else q.v

/-- `_parse_mem`: MiB and KiB are normalized to GiB. -/
def parseMem (q : MemQty) : ℚ :=
  match q.unit with
  | MemUnit.gi => q.v
  | MemUnit.mi => q.v / 1024
  | MemUnit.ki => q.v / (1024 * 1024)
  | MemUnit.plain => q.v

/-- The string `"0"` used as the default for a missing resource key. -/
def cpuZero : CpuQty := { v := 0, milli := false }

/-- The string `"0"` used as the default for a missing memory key. -/
def memZero : MemQty := { v := 0, unit := MemUnit.plain }

/-- One resource map (`requests` or `limits`) of a container: both keys are
optional. -/
structure ResMap where
  cpu : Option CpuQty
  mem : Option MemQty
deriving DecidableEq, Repr

/-- A container spec: `resources.requests` and `resources.limits`, each of
which may be `None` altogether. -/
structure Container where
  requests : Option ResMap
  limits : Option ResMap
deriving DecidableEq, Repr

/-- CPU request of one container as read by `Scheduler._fetch_pending_list`:
`reqs = c.resources.requests or {}` then `_parse_cpu(reqs.get("cpu", "0"))`. -/
def pendingCpuOf (c : Container) : ℚ :=
  match c.requests with
  | none => parseCpu cpuZero
  | some r => parseCpu (r.cpu.getD cpuZero)

/-- Memory request of one container as read by `_fetch_pending_list`. -/
def pendingMemOf (c : Container) : ℚ :=
  match c.requests with
  | none => parseMem memZero
  | some r => parseMem (r.mem.getD memZero)

/-- CPU request of one container as read by `snapshot_cluster`. -/
def snapReqCpuOf (c : Container) : ℚ :=
  match c.requests with
  | none => 0
  | some r => parseCpu (r.cpu.getD cpuZero)

/-- CPU limit of one container as read by `snapshot_cluster`. -/
def snapLimCpuOf (c : Container) : ℚ :=
  match c.limits with
  | none => 0
  | some r => parseCpu (r.cpu.getD cpuZero)

/-- Memory request of one container as read by `snapshot_cluster`. -/
def snapReqMemOf (c : Container) : ℚ :=
  match c.requests with
  | none => 0
  | some r => parseMem (r.mem.getD memZero)

/-- Memory limit of one container as read by `snapshot_cluster`. -/
def snapLimMemOf (c : Container) : ℚ :=
  match c.limits with
  | none => 0
  | some r => parseMem (r.mem.getD memZero)

/-- `_fetch_pending_list` pod CPU demand: the loop
`cpu_req += _parse_cpu(reqs.get("cpu", "0"))` over the containers. -/
def pendingPodCpu (cs : List Container) : ℚ :=
  cs.foldl (fun acc c => acc + pendingCpuOf c) 0

/-- `_fetch_pending_list` pod memory demand. -/
def pendingPodMem (cs : List Container) : ℚ :=
  cs.foldl (fun acc c => acc + pendingMemOf c) 0

/-- `snapshot_cluster` pod CPU demand: the loop
`cpu_req += max(req_cpu, lim_cpu)` over the containers. -/
def snapPodCpu (cs : List Container) : ℚ :=
  cs.foldl (fun acc c => acc + max (snapReqCpuOf c) (snapLimCpuOf c)) 0

/-- `snapshot_cluster` pod memory demand. -/
def snapPodMem (cs : List Container) : ℚ :=
  cs.foldl (fun acc c => acc + max (snapReqMemOf c) (snapLimMemOf c)) 0

/-! ## Snapshotter (`cluster_state.snapshot_cluster`) -/

/-- A live node as reported by the cluster API. -/
structure NodeIn where
  name : String
  ready : Bool
  allocCpu : ℚ
  allocMemKi : ℚ
deriving DecidableEq, Repr

/-- A live pod as reported by the cluster API. -/
structure PodIn where
  name : String
  ns : String
  phase : String
  nodeName : Option String
  containers : List Container
  labels : List (String × String) := []
deriving DecidableEq, Repr

/-- Full name of a live pod. -/
def PodIn.fullName (p : PodIn) : String := p.ns ++ "/" ++ p.name

/-- Node construction pass of `snapshot_cluster`: Ready nodes that appear in
the persisted `node_info` mapping become existing nodes with price 0 and
allocatable capacity (memory is reported in Ki and normalized to GiB); the
rest are skipped. -/
def buildSnapshotNodes (nodesIn : List NodeIn)
    (nodeInfo : List (String × String × String)) : List Node :=
  nodesIn.filterMap (fun n =>
    if n.ready then
      match List.lookup n.name nodeInfo with
      | some meta =>
          some (mkNode n.name meta.2 meta.1 n.allocCpu
            (n.allocMemKi / 1024 / 1024) 0 true)
      | none => none
    else none)

/-- The `Pod` object built by the pod loop of `snapshot_cluster`: demand is
the per-container, per-dimension `max(request, limit)`, `is_new` is false. -/
def podOfPin (pin : PodIn) : Pod :=
  { name := pin.name, ns := pin.ns,
    cpu := snapPodCpu pin.containers, mem := snapPodMem pin.containers,
    labels := pin.labels, is_new := false }

/-- Pod pass of `snapshot_cluster`, one step.  A Running pod bound to a known
node is added to that node (`record` only for the `default` namespace, the
`resource overflow` assertion being caught and the pod skipped), and entered
into `pod2node`.  Pending and other pods leave the plan unchanged. -/
def snapshotStep (st : Plan) (pin : PodIn) : Plan :=
  if pin.phase = "Running" ∨ pin.phase = "Pending" then
    if pin.phase = "Running" then
      match pin.nodeName with
      | some nname =>
          match st.nodes.find? (fun nd => decide (nd.name = nname)) with
          | some nd =>
              if canFit nd (podOfPin pin) then
                { nodes := updateNodes st.nodes nname
                    (fun x =>
                      addPod x (podOfPin pin) (decide (pin.ns = "default"))),
                  pod2node :=
                    insertPN (podOfPin pin).fullName nname st.pod2node }
              else st
          | none => st
      | none => st
    else st
  else st

/-- `snapshot_cluster`: build the node table, then bind the Running pods. -/
def snapshotCluster (nodesIn : List NodeIn)
    (nodeInfo : List (String × String × String))
    (podsIn : List PodIn) : Plan :=
  podsIn.foldl snapshotStep
    { nodes := buildSnapshotNodes nodesIn nodeInfo, pod2node := [] }

/-! ## Catalog

`spec_map[region][machine_type] = (vCPU, memGiB)` and
`price_map[region]["OnDemand"][machine_type] = price`, both read-only. -/

/-- `spec_map`: region to machine-type to (vCPU, mem). -/
def SpecMap : Type := List (String × List (String × ℚ × ℚ))

/-- `price_map` restricted to the `OnDemand` table the core reads. -/
def PriceMap : Type := List (String × List (String × ℚ))

/-- `price_map.get(region, {}).get("OnDemand", {}).get(mt, 1e9)`. -/
def lookupPrice (pm : PriceMap) (region mt : String) : ℚ :=
  match List.lookup region pm with
  | none => 1000000000
  | some mts => (List.lookup mt mts).getD 1000000000

/-! ## RFSA optimizer (`rfsa_optimizer.RFSAOptimizer`) -/

/-- Number of worker (non-master) nodes of a plan. -/
def countWorkers (plan : Plan) : Nat :=
  (plan.nodes.filter (fun nd => decide (nd.name ≠ "master"))).length

/-- Total worker `cpu_cap` of a plan. -/
def cpuCapSum (plan : Plan) : ℚ :=
  ((plan.nodes.filter (fun nd => decide (nd.name ≠ "master"))).map
    (fun nd => nd.cpu_cap)).sum

/-- The `(cpu_left, suit, node)` triple kept in `best` by `_fit_existing`. -/
structure FitBest where
  cpuLeft : ℚ
  suit : QF
  nd : Node
deriving DecidableEq

/-- The comparison `key < best[:2]` in `_fit_existing`: the candidate's
`(cpu_ratio, suit)` tuple is compared against the STORED `(cpu_left, suit)`
tuple with Python tuple ordering.  Note the mismatch: the stored first
component is `cpu_left`, not `cpu_ratio`. -/
def fitKeyLt (ratio : ℚ) (suit : QF) (best : FitBest) : Bool :=
  decide (ratio < best.cpuLeft) ||
    (decide (ratio = best.cpuLeft) && QF.lt suit best.suit)

/-- One candidate inspection of the `_fit_existing` loop. -/
def fitStep (pod : Pod) (best : Option FitBest) (nd : Node) :
    Option FitBest :=
  if !canFit nd pod || decide (nd.name = "master") then best
  else
    let cpuLeft := nd.usable_cpu_cap - nd.cpu_used
    let memLeft := nd.mem_cap - nd.mem_used
    -- cpu_ratio = (cpu_left - pod.cpu) / nd.cpu_cap  (ZeroDivisionError for
    -- cpu_cap = 0 in the source; nodes always have positive caps)
    let cpuRatio := (cpuLeft - pod.cpu) / nd.cpu_cap
    let suit := suitOf (rhoOf pod.cpu pod.mem) (rhoOf cpuLeft memLeft)
    match best with
    | none => some { cpuLeft := cpuLeft, suit := suit, nd := nd }
    | some b =>
        if fitKeyLt cpuRatio suit b then
          some { cpuLeft := cpuLeft, suit := suit, nd := nd }
        else best

/-- `RFSAOptimizer._fit_existing`: scan the nodes, keep `best`, then place
the pod on `best[2]` if any.  Returns the `chosen` flag and the new plan. -/
def fitExisting (plan : Plan) (pod : Pod) : Bool × Plan :=
  match plan.nodes.foldl (fitStep pod) none with
  | some b =>
      (true,
        { nodes := updateNodes plan.nodes b.nd.name
            (fun nd => addPod nd pod true),
          pod2node := insertPN pod.fullName b.nd.name plan.pod2node })
  | none => (false, plan)

/-- A machine-type candidate tuple `(cpu_left, suit, price, region, mt)` as
built by `_open_new_node`, `_pick_machine` and the `upgrade` move.  The
winner's `(vcpu, mem)` is re-read from `spec_map[region][mt]` in the source;
since dict keys are unique there, that lookup returns the generating entry,
which is carried here directly. -/
structure Cand where
  waste : ℚ
  suit : QF
  price : ℚ
  region : String
  mt : String
  vcpu : ℚ
  mem : ℚ
deriving DecidableEq

/-- Python `<` on the 3-prefix `(t[0], t[1], t[2])` of a candidate tuple. -/
def cand3Lt (a b : Cand) : Bool :=
  decide (a.waste < b.waste) ||
    (decide (a.waste = b.waste) &&
      (QF.lt a.suit b.suit ||
        (QF.beqF a.suit b.suit && decide (a.price < b.price))))

/-- Sort order used for `cand.sort(key=lambda t: (t[0], t[1], t[2]))`. -/
def cand3Le (a b : Cand) : Prop := ¬ cand3Lt b a = true

instance : DecidableRel cand3Le := fun a b => by
  unfold cand3Le; infer_instance

/-- Python `<` on the 4-component RFSA key
`(t[0], t[1], t[2], len(plan.nodes_by_region().get(t[3], [])))`. -/
def rfsaKeyLt (plan : Plan) (a b : Cand) : Bool :=
  cand3Lt a b ||
    ((decide (a.waste = b.waste) && QF.beqF a.suit b.suit &&
        decide (a.price = b.price)) &&
      decide (regionCount plan a.region < regionCount plan b.region))

/-- Sort order for `_open_new_node`'s candidate sort. -/
def rfsaKeyLe (plan : Plan) (a b : Cand) : Prop := ¬ rfsaKeyLt plan b a = true

instance (plan : Plan) : DecidableRel (rfsaKeyLe plan) := fun a b => by
  unfold rfsaKeyLe; infer_instance

/-- Candidate enumeration of `RFSAOptimizer._open_new_node`: every
`(region, mt)` of the catalog whose size covers the pod (with the default
overhead), that keeps the cluster CPU cap, and that has a usable price. -/
def rfsaCandidates (sm : SpecMap) (pm : PriceMap) (currCpuCap : ℚ)
    (rhoPod : QF) (needCpu needMem : ℚ) : List Cand :=
  sm.flatMap (fun rp =>
    rp.2.filterMap (fun mts =>
      let mt := mts.1
      let vcpu := mts.2.1
      let mem := mts.2.2
      if vcpu - DEFAULT_OVERHEAD_CPU < needCpu ∨ mem < needMem then none
      else if vcpu < needCpu ∨ mem < needMem then none
      else if MAX_CLUSTER_CPU < currCpuCap + vcpu then none
      else
        let price := lookupPrice pm rp.1 mt
        if price ≤ 0 ∨ price = 1000000000 then none
        else
          some { waste := (vcpu - DEFAULT_OVERHEAD_CPU) - needCpu,
                 suit := suitOf rhoPod (rhoOf vcpu mem),
                 price := price, region := rp.1, mt := mt,
                 vcpu := vcpu, mem := mem }))

/-- Suitability threshold `suit_thresh = 0.6` of `_open_new_node`. -/
def suitThresh : ℚ := 6 / 10

/-- `good` partition test: `suit <= suit_thresh` with Python float
comparison (false for `inf`/`nan` suitabilities). -/
def suitGood (c : Cand) : Bool :=
  QF.lt c.suit (QF.fin suitThresh) || QF.beqF c.suit (QF.fin suitThresh)

/-- `RFSAOptimizer._open_new_node`: refuse at the worker-count cap, enumerate
candidates, prefer the `good` (well-suited) ones, sort and take the head,
then build the hypothetical node `rfsa-<region>-<mt>-<rand>`. -/
def rfsaOpenNewNode (sm : SpecMap) (pm : PriceMap) (plan : Plan) (pod : Pod)
    (rand : Nat) : Option Node :=
  let rhoPod := rhoOf pod.cpu pod.mem
  if MAX_WORKER_NODES ≤ countWorkers plan then none
  else
    let cands := rfsaCandidates sm pm (cpuCapSum plan) rhoPod pod.cpu pod.mem
    let good := cands.filter suitGood
    let other := cands.filter (fun c => !suitGood c)
    if good.isEmpty ∧ other.isEmpty then none
    else
      let cand := if good.isEmpty then other else good
      match (cand.insertionSort (rfsaKeyLe plan)).head? with
      | none => none
      | some c =>
          some (mkNode ("rfsa-" ++ c.region ++ "-" ++ c.mt ++ "-" ++
            toString rand) c.region c.mt c.vcpu c.mem c.price false)

/-- The descending, stable sort
`pending.sort(key=lambda p: (p.cpu + p.mem), reverse=True)`. -/
def sortPendingDesc (pending : List Pod) : List Pod :=
  pending.insertionSort (fun a b => b.cpu + b.mem ≤ a.cpu + a.mem)

/-- One pod of the `RFSAOptimizer.optimize` loop: try `_fit_existing`, then
`_open_new_node`; an unplaceable pod goes to `still_pending`. -/
def rfsaStep (sm : SpecMap) (pm : PriceMap) (st : Plan × List Pod × Nat)
    (pod : Pod) : Plan × List Pod × Nat :=
  let plan := st.1
  let res := fitExisting plan pod
  if res.1 then (res.2, st.2.1, st.2.2)
  else
    match rfsaOpenNewNode sm pm plan pod st.2.2 with
    | some nd =>
        ({ nodes := openNodeList plan.nodes (addPod nd pod true),
           pod2node := insertPN pod.fullName nd.name plan.pod2node },
          st.2.1, st.2.2 + 1)
    | none => (plan, st.2.1 ++ [pod], st.2.2)

/-- `RFSAOptimizer.optimize`: clone, sort pending descending by `cpu + mem`,
then place each pod.  The `Nat` component seeds the random node-name
suffixes. -/
def rfsaOptimize (sm : SpecMap) (pm : PriceMap) (current : Plan)
    (pending : List Pod) : Plan × List Pod :=
  let res := (sortPendingDesc pending).foldl (rfsaStep sm pm)
    (current, [], 0)
  (res.1, res.2.1)

/-! ## SA optimizer (`sa_optimizer.SAOptimizer`)

`_neighbor` first computes a mode-specific mobile-pod list and operator set
(incremental: only `is_new` pods, operators `("move", "swap", "open",
"upgrade_nwe", "upgrade_nwe")`), but the block at lines 132-135 immediately
recomputes both without the mode distinction, so the effective mobile set is
every pod on a non-master node and the effective operator tuple is
`("move", "swap", "close", "open", "upgrade", "upgrade")` in both modes. -/

/-- The incremental-mode mobile set computed at lines 119-123 of
`sa_optimizer.py` and then discarded by the override: full names of `is_new`
pods on non-master nodes. -/
def expPodsIncremental (plan : Plan) : List String :=
  plan.nodes.flatMap (fun nd =>
    (nd.pods.filter (fun p => p.is_new && decide (nd.name ≠ "master"))).map
      (fun p => p.fullName))

/-- The effective mobile set (lines 132-134): every pod on a non-master
node. -/
def expPodsAll (plan : Plan) : List String :=
  (plan.nodes.filter (fun nd => decide (nd.name ≠ "master"))).flatMap
    (fun nd => nd.pods.map (fun p => p.fullName))

/-- The effective operator tuple (line 135), both modes. -/
def allowedOpsOverride : List String :=
  ["move", "swap", "close", "open", "upgrade", "upgrade"]

/-- `SAOptimizer._normalize`: for every `pod2node` entry, force the pod's
full name out of the resident list of every non-target node. -/
def normalizePlan (plan : Plan) : Plan :=
  { plan with
    nodes := plan.pod2node.foldl (fun ns e =>
      ns.map (fun nd =>
        if nd.name = e.2 then nd
        else { nd with
          pods := nd.pods.filter (fun p => p.fullName ≠ e.1) })) plan.nodes }

/-- `SAOptimizer._constraints_ok`: at most `MAX_WORKER_NODES` workers and at
most `MAX_CLUSTER_CPU` total worker `cpu_cap`. -/
def constraintsOk (plan : Plan) : Bool :=
  if MAX_WORKER_NODES < countWorkers plan then false
  else decide (cpuCapSum plan ≤ MAX_CLUSTER_CPU)

/-- `SAOptimizer._can_add_node`: strictly below both caps. -/
def canAddNode (plan : Plan) : Bool :=
  if MAX_WORKER_NODES ≤ countWorkers plan then false
  else decide (cpuCapSum plan < MAX_CLUSTER_CPU)

/-- The common tail of every neighbourhood move:
`if self._constraints_ok(new): self._normalize(new); return new` else
`return None`. -/
def finishMove (plan : Plan) : Option Plan :=
  if constraintsOk plan then some (normalizePlan plan) else none

/-- `SAOptimizer._get_pod_obj`: the resident pod with the given full name,
if any. -/
def getPodObj (fullName : String) (nd : Node) : Option Pod :=
  nd.pods.find? (fun p => decide (p.fullName = fullName))

/-- The random draws one `_neighbor` call can consume, as an explicit
oracle. -/
structure Choices where
  opIdx : Nat := 0
  podIdx : Nat := 0
  tgtIdx : Nat := 0
  pairIdx1 : Nat := 0
  pairIdx2 : Nat := 0
  lowIdx : Nat := 0
  coin : Bool := false
  otherIdx : Nat := 0
  pendIdx : Nat := 0
  regionIdx : Nat := 0
  randName : Nat := 0
deriving DecidableEq

/-- Two distinct positions of a list of length `n ≥ 2`, modelling
`random.sample(l, 2)`. -/
def samplePair (n i j : Nat) : Nat × Nat :=
  let a := i % n
  let b := j % (n - 1)
  (a, if b < a then b else b + 1)

/-- The node currently bound to a full name: `new.nodes[new.pod2node[f]]`
(a missing key raises KeyError in the source; modelled as `none`). -/
def nodeOfPod (plan : Plan) (fullName : String) : Option Node :=
  match List.lookup fullName plan.pod2node with
  | none => none
  | some nname => plan.nodes.find? (fun nd => decide (nd.name = nname))

/-- The `move` neighbourhood: relocate one mobile pod to another non-master
node that fits it. -/
def moveBranch (plan : Plan) (expPods : List String) (ch : Choices) :
    Option Plan :=
  if expPods.isEmpty then none
  else
    match pick expPods ch.podIdx with
    | none => none
    | some pfull =>
        match nodeOfPod plan pfull with
        | none => none   -- KeyError path in the source
        | some srcNd =>
            match getPodObj pfull srcNd with
            | none => none
            | some pod =>
                match pick plan.nodes ch.tgtIdx with
                | none => none
                | some tgtNd =>
                    if tgtNd.name = srcNd.name ∨ tgtNd.name = "master" then
                      none
                    else if !canFit tgtNd pod then none
                    else
                      finishMove
                        { nodes := updateNodes
                            (updateNodes plan.nodes srcNd.name
                              (fun nd => rmPod nd pod))
                            tgtNd.name (fun nd => addPod nd pod true),
                          pod2node :=
                            insertPN pod.fullName tgtNd.name plan.pod2node }

/-- The `swap` neighbourhood: exchange two mobile pods between two distinct
non-master nodes when both fit. -/
def swapBranch (plan : Plan) (expPods : List String) (ch : Choices) :
    Option Plan :=
  let pr := samplePair expPods.length ch.pairIdx1 ch.pairIdx2
  match expPods.get? pr.1, expPods.get? pr.2 with
  | some p1, some p2 =>
      match nodeOfPod plan p1, nodeOfPod plan p2 with
      | some n1, some n2 =>
          if n1.name = n2.name ∨ n1.name = "master" ∨ n2.name = "master" then
            none
          else
            match getPodObj p1 n1, getPodObj p2 n2 with
            | some pd1, some pd2 =>
                if canFit n1 pd2 && canFit n2 pd1 then
                  finishMove
                    { nodes := updateNodes
                        (updateNodes
                          (updateNodes
                            (updateNodes plan.nodes n1.name
                              (fun nd => rmPod nd pd1))
                            n2.name (fun nd => rmPod nd pd2))
                          n1.name (fun nd => addPod nd pd2 true))
                        n2.name (fun nd => addPod nd pd1 true),
                      pod2node := insertPN p2 n1.name
                        (insertPN p1 n2.name plan.pod2node) }
                else none
            | _, _ => none
      | _, _ => none   -- KeyError path in the source
  | _, _ => none

/-- Greedy migration loop of the `close` move: move each resident pod to the
first other non-master node that fits it; fail if any pod cannot be
placed. -/
def migrateAll (srcName : String) : Plan → List Pod → Option Plan
  | plan, [] => some plan
  | plan, p :: rest =>
      match plan.nodes.find? (fun other =>
          decide (other.name ≠ srcName) && decide (other.name ≠ "master") &&
            canFit other p) with
      | none => none
      | some other =>
          migrateAll srcName
            { nodes := updateNodes
                (updateNodes plan.nodes srcName (fun nd => rmPod nd p))
                other.name (fun nd => addPod nd p true),
              pod2node := insertPN p.fullName other.name plan.pod2node }
            rest

/-- The `close` neighbourhood (disabled in incremental mode): drain a
low-utilization node and delete it. -/
def closeBranch (incMode : Bool) (plan : Plan) (ch : Choices) :
    Option Plan :=
  if incMode then none
  else
    let idle := plan.nodes.filter (fun nd =>
      decide (nd.name ≠ "master") && decide (nd.name ≠ "node-1") &&
        decide (utilization nd ≤ 1 / 2))
    match pick idle ch.lowIdx with
    | none => none
    | some nd =>
        match migrateAll nd.name plan nd.pods with
        | none => none
        | some plan2 =>
            let plan3 :=
              match plan2.nodes.find? (fun x => decide (x.name = nd.name)) with
              | some cur =>
                  -- `if len(nd.pods) == 0`: zero the residual resources and
                  -- close the node
                  if cur.pods.isEmpty then closeNodePlan plan2 nd.name
                  else plan2
              | none => plan2
            finishMove plan3

/-- `SAOptimizer._pick_machine`: the catalog scan used by the `open` move,
honouring the remaining cluster CPU allowance. -/
def pickMachine (sm : SpecMap) (pm : PriceMap) (pod : Pod) (plan : Plan)
    (rand : Nat) : Option Node :=
  let cpuAllow := MAX_CLUSTER_CPU - cpuCapSum plan
  if cpuAllow < pod.cpu then none
  else
    let rhoPod := rhoOf pod.cpu pod.mem
    let cands := sm.flatMap (fun rp =>
      rp.2.filterMap (fun mts =>
        let mt := mts.1
        let vcpu := mts.2.1
        let mem := mts.2.2
        if vcpu - DEFAULT_OVERHEAD_CPU < pod.cpu ∨ mem < pod.mem then none
        else if cpuAllow < vcpu then none
        else
          let price := lookupPrice pm rp.1 mt
          if price ≤ 0 ∨ price = 1000000000 then none
          else
            some { waste := vcpu - DEFAULT_OVERHEAD_CPU - pod.cpu,
                   suit := suitOf rhoPod (rhoOf vcpu mem),
                   price := price, region := rp.1, mt := mt,
                   vcpu := vcpu, mem := mem }))
    match (cands.insertionSort cand3Le).head? with
    | none => none
    | some c =>
        some (mkNode ("sa-" ++ c.region ++ "-" ++ c.mt ++ "-" ++
          toString rand) c.region c.mt c.vcpu c.mem c.price false)

/-- The `open` neighbourhood: place one pending pod on a freshly picked
machine, if the caps allow a new node at all. -/
def openBranch (sm : SpecMap) (pm : PriceMap) (plan : Plan)
    (pending : List Pod) (ch : Choices) : Option Plan :=
  if !canAddNode plan then none
  else if pending.isEmpty then none
  else
    match pick pending ch.pendIdx with
    | none => none
    | some pd =>
        match pickMachine sm pm pd plan ch.randName with
        | none => none
        | some nd =>
            finishMove
              { nodes := openNodeList plan.nodes (addPod nd pd true),
                pod2node := insertPN pd.fullName nd.name plan.pod2node }

/-- Migration loop shared by `upgrade` and `upgrade_new`: move the listed
pods onto the (already opened) node `tgtName`, reading the source node of
each pod from `pod2node`; fail as soon as the target cannot fit one. -/
def mergeMigrate (tgtName : String) : Plan → List Pod → Option Plan
  | plan, [] => some plan
  | plan, p :: rest =>
      match plan.nodes.find? (fun x => decide (x.name = tgtName)) with
      | none => none   -- unreachable: the target was just opened
      | some tgt =>
          if !canFit tgt p then none
          else
            match List.lookup p.fullName plan.pod2node with
            | none => none   -- KeyError path in the source
            | some oldName =>
                mergeMigrate tgtName
                  { nodes := updateNodes
                      (updateNodes plan.nodes oldName (fun nd => rmPod nd p))
                      tgtName (fun nd => addPod nd p true),
                    pod2node := insertPN p.fullName tgtName plan.pod2node }
                  rest

/-- Final pass of the `upgrade` move: close every group node that is still
present and empty (zeroing its residual resources first). -/
def closeEmptyGroup (plan : Plan) (group : List Node) : Plan :=
  group.foldl (fun pl nd =>
    match pl.nodes.find? (fun x => decide (x.name = nd.name)) with
    | some cur => if cur.pods.isEmpty then closeNodePlan pl nd.name else pl
    | none => pl) plan

/-- The `upgrade` neighbourhood (disabled in incremental mode): merge one or
two low-utilization nodes into one larger machine in the same region. -/
def upgradeBranch (sm : SpecMap) (pm : PriceMap) (incMode : Bool)
    (plan : Plan) (ch : Choices) : Option Plan :=
  if incMode then none
  else
    let low := plan.nodes.filter (fun nd =>
      decide (nd.name ≠ "master") && decide (nd.name ≠ "node-1") &&
        decide (utilization nd ≤ 2 / 5))
    match pick low ch.lowIdx with
    | none => none
    | some src1 =>
        let otherLow := low.filter (fun nd => decide (nd.name ≠ src1.name))
        let group :=
          if !otherLow.isEmpty && ch.coin then
            src1 :: ((pick otherLow ch.otherIdx).map (fun x => [x])).getD []
          else [src1]
        let needCpu := (group.map (fun nd =>
          (nd.pods.map (fun p => p.cpu)).sum)).sum
        let needMem := (group.map (fun nd =>
          (nd.pods.map (fun p => p.mem)).sum)).sum
        let cpuUsed := cpuCapSum plan
        let cpuAllow := MAX_CLUSTER_CPU - cpuUsed +
          (group.map (fun nd => nd.cpu_cap)).sum
        match List.lookup src1.region sm with
        | none => none   -- KeyError path in the source
        | some mts =>
            let rhoPod := rhoOf needCpu needMem
            let cands := mts.filterMap (fun m =>
              let vcpu := m.2.1
              let mem := m.2.2
              if vcpu - DEFAULT_OVERHEAD_CPU < needCpu ∨ mem < needMem then
                none
              else if cpuAllow < vcpu then none
              else
                let price := lookupPrice pm src1.region m.1
                if price ≤ 0 ∨ price = 1000000000 then none
                else
                  some { waste := vcpu - needCpu,
                         suit := suitOf rhoPod (rhoOf vcpu mem),
                         price := price, region := src1.region, mt := m.1,
                         vcpu := vcpu, mem := mem })
            match (cands.insertionSort cand3Le).head? with
            | none => none
            | some c =>
                let newNd := mkNode ("up-" ++ c.region ++ "-" ++ c.mt ++
                  "-" ++ toString ch.randName) c.region c.mt c.vcpu c.mem
                  c.price false
                let plan1 := openNodePlan plan newNd
                let podsToMove := group.flatMap (fun nd => nd.pods)
                match mergeMigrate newNd.name plan1 podsToMove with
                | none => none
                | some plan2 => finishMove (closeEmptyGroup plan2 group)

/-- The `upgrade_new` neighbourhood of the source (lines 316-377): merge two
hypothesized (`is_existing=false`) nodes of one region.  Note that the
effective operator tuple never contains the string `"upgrade_new"` (the
pre-override tuple has the typo `"upgrade_nwe"`), so this branch is
unreachable from `_neighbor`'s dispatch. -/
def upgradeNewBranch (sm : SpecMap) (pm : PriceMap) (plan : Plan)
    (ch : Choices) : Option Plan :=
  let newNodes := plan.nodes.filter (fun nd =>
    !nd.is_existing && decide (nd.name ≠ "master") &&
      decide (nd.name ≠ "node-1"))
  if newNodes.length < 2 then none
  else
    let regions := ((newNodes.map (fun nd => nd.region)).dedup).filter
      (fun r => 2 ≤ (newNodes.filter (fun nd =>
        decide (nd.region = r))).length)
    match pick regions ch.regionIdx with
    | none => none
    | some region =>
        let lst := newNodes.filter (fun nd => decide (nd.region = region))
        let pr := samplePair lst.length ch.pairIdx1 ch.pairIdx2
        match lst.get? pr.1, lst.get? pr.2 with
        | some nd1, some nd2 =>
            let needCpu := nd1.cpu_cap + nd2.cpu_cap
            let needMem := nd1.mem_cap + nd2.mem_cap
            match List.lookup region sm with
            | none => none   -- KeyError path in the source
            | some mts =>
                let cands := mts.filterMap (fun m =>
                  let vcpu := m.2.1
                  let mem := m.2.2
                  if vcpu - DEFAULT_OVERHEAD_CPU < needCpu ∨
                      mem < needMem then none
                  else
                    let price := lookupPrice pm region m.1
                    if price ≤ 0 ∨ price = 1000000000 then none
                    else
                      some { waste := vcpu - needCpu, suit := QF.fin 0,
                             price := price, region := region, mt := m.1,
                             vcpu := vcpu, mem := mem })
                -- sort key is `(waste_cpu, price)`; the suit component is a
                -- placeholder equal on all entries
                match (cands.insertionSort cand3Le).head? with
                | none => none
                | some c =>
                    let mergeNd := mkNode ("inc-up-" ++ region ++ "-" ++
                      c.mt ++ "-" ++ toString ch.randName) region c.mt
                      c.vcpu c.mem c.price false
                    let plan1 := openNodePlan plan mergeNd
                    match mergeMigrate mergeNd.name plan1
                        (nd1.pods ++ nd2.pods) with
                    | none => none
                    | some plan2 =>
                        finishMove (closeNodePlan
                          (closeNodePlan plan2 nd1.name) nd2.name)
        | _, _ => none

/-- `SAOptimizer._neighbor`.  The mode-specific mobile set and operator
tuple are recomputed without the mode distinction immediately before the
dispatch (the override at lines 132-135), so `expPodsAll` and
`allowedOpsOverride` are the effective values in both modes; `incremental`
only survives in the in-branch guards of `close` and `upgrade` and in the
early exit when there is no mobile pod at all. -/
def sANeighbor (sm : SpecMap) (pm : PriceMap) (incMode : Bool) (plan : Plan)
    (pending : List Pod) (ch : Choices) : Option Plan :=
  let expPods := expPodsAll plan
  if expPods.isEmpty && incMode then none
  else
    match pick allowedOpsOverride ch.opIdx with
    | none => none
    | some op =>
        if op = "move" then moveBranch plan expPods ch
        else if op = "swap" then
          if 2 ≤ expPods.length then swapBranch plan expPods ch else none
        else if op = "close" then closeBranch incMode plan ch
        else if op = "open" then openBranch sm pm plan pending ch
        else if op = "upgrade" then upgradeBranch sm pm incMode plan ch
        else if op = "upgrade_new" then upgradeNewBranch sm pm plan ch
        else none

/-! ## Scheduler (`scheduler.Scheduler`) -/

/-- Python's `t in s` substring test. -/
def containsSub (s t : String) : Bool :=
  (List.range (s.length + 1)).any
    (fun i => t.data.isPrefixOf (s.data.drop i))

/-- The two provider error markers that trigger the region fallback. -/
def quotaMarker (msg : String) : Bool :=
  containsSub msg "ZONE_RESOURCE_POOL_EXHAUSTED" ||
    containsSub msg "QUOTA_EXCEEDED"

/-- The fallback candidate regions of `_try_create_with_fallback`: every
region other than the planned one whose on-demand price for the node's exact
machine-type differs from the planned price by less than `1e-6`, in
`price_map` iteration order. -/
def fallbackCands (pm : PriceMap) (nd : Node) : List String :=
  pm.filterMap (fun rp =>
    if rp.1 = nd.region then none
    else
      match List.lookup nd.machine_type rp.2 with
      | none => none
      | some price =>
          if |price - nd.price| < 1 / 1000000 then some rp.1 else none)

/-- The result of one provider `create_node` call. -/
def CreateFn : Type := String → String → String → Except String Unit

/-- The fallback retry loop: try each candidate region in turn; on the first
success return the node with its region rewritten; if every candidate fails,
raise. -/
def fallbackGo (create : CreateFn) (nd : Node) :
    List String → Except String Node
  | [] => Except.error ("all fallback regions exhausted for " ++ nd.name)
  | r :: rest =>
      match create nd.name r nd.machine_type with
      | Except.ok _ => Except.ok { nd with region := r }
      | Except.error _ => fallbackGo create nd rest

/-- `Scheduler._try_create_with_fallback`: try the planned region; on a
quota/exhaustion error walk the same-price regions; on any other error
re-raise it unchanged. -/
def tryCreateWithFallback (create : CreateFn) (pm : PriceMap) (nd : Node) :
    Except String Node :=
  match create nd.name nd.region nd.machine_type with
  | Except.ok _ => Except.ok nd
  | Except.error msg =>
      if !quotaMarker msg then Except.error msg
      else
        let cand := fallbackCands pm nd
        if cand.isEmpty then
          Except.error "no region with same price for fallback"
        else fallbackGo create nd cand

/-- Scheduler state relevant to the full-mode cooldown. -/
structure SchedState where
  lastFullTs : ℚ
deriving DecidableEq

/-- The inputs of one `_run_once` cycle.  The optimizer is randomized, so the
two plans it would return are oracle inputs; their energies are computed by
the embedded `energy`.  `applyTime` is the `time.time()` read after the plan
is applied (so `now ≤ applyTime`). -/
structure CycleIn where
  now : ℚ
  hasPending : Bool
  incPlan : Plan
  fullPlan : Plan
  applyTime : ℚ
deriving DecidableEq

/-- The observable outcome of one cycle: whether full-mode SA ran, and
whether the full plan was chosen (`do_full`). -/
structure CycleOut where
  ranFull : Bool
  choseFull : Bool
deriving DecidableEq

/-- `full_threshold` default `0.95`. -/
def fullThreshold : ℚ := 95 / 100

/-- `cooldown_sec` default `240`. -/
def cooldownDefault : ℚ := 240

/-- The `_run_once` control flow around the full-mode cooldown: full-mode SA
runs iff there are pending pods and `now - last_full_ts >= cooldown`; the
full plan is chosen iff additionally
`E_full / (E_inc + 1e-8) <= full_threshold`; and `last_full_ts` is updated
(to the post-apply clock) only when the full plan is chosen. -/
def runOnce (cooldown : ℚ) (s : SchedState) (c : CycleIn) :
    SchedState × CycleOut :=
  if !c.hasPending then (s, { ranFull := false, choseFull := false })
  else if cooldown ≤ c.now - s.lastFullTs then
    if energy c.fullPlan / (energy c.incPlan + 1 / 100000000) ≤
        fullThreshold then
      ({ lastFullTs := c.applyTime }, { ranFull := true, choseFull := true })
    else (s, { ranFull := true, choseFull := false })
  else (s, { ranFull := false, choseFull := false })

/-- Forward plan consistency (direction 1 of the spec's invariant): every
pod resident on a node is mapped by `pod2node` back to that node. -/
def ForwardConsistent (st : Plan) : Prop :=
  ∀ nd ∈ st.nodes, ∀ q ∈ nd.pods,
    List.lookup q.fullName st.pod2node = some nd.name

/-- No node of the plan holds a resident pod with the given full name. -/
def NoResident (st : Plan) (f : String) : Prop :=
  ∀ nd ∈ st.nodes, ∀ q ∈ nd.pods, q.fullName ≠ f

/-- The hard constraints of the claim plus nonnegative capacities (every
catalog machine and live node has `cpu_cap ≥ 0`). -/
def PlanCapsOk (plan : Plan) : Prop :=
  countWorkers plan ≤ MAX_WORKER_NODES ∧
    cpuCapSum plan ≤ MAX_CLUSTER_CPU ∧
    ∀ nd ∈ plan.nodes, 0 ≤ nd.cpu_cap

/-! ## Resource equivalence of plans -/

/-- Two nodes agree on resource accounting and on which full names are
resident. -/
def NodeEquiv (x y : Node) : Prop :=
  x.name = y.name ∧ x.cpu_used = y.cpu_used ∧ x.mem_used = y.mem_used ∧
    ∀ f, f ∈ x.pods.map Pod.fullName ↔ f ∈ y.pods.map Pod.fullName

/-- Resource equivalence of two plans: node-by-node `NodeEquiv`, and equal
`pod2node` as a lookup table. -/
def PlanResourceEquiv (p q : Plan) : Prop :=
  List.Forall₂ NodeEquiv p.nodes q.nodes ∧
    ∀ k, List.lookup k p.pod2node = List.lookup k q.pod2node

/-! ## Concrete inputs used by counterexamples and witnesses -/

/-- A running pod (not flagged `is_new`) for the incremental-mode
counterexample. -/
def c1old : Pod := { name := "old", ns := "default", cpu := 1, mem := 1 }

/-- Master node of the counterexample plans. -/
def c1master : Node := mkNode "master" "r0" "mm" 2 8 0 true

/-- Existing worker holding the old pod. -/
def c1nA : Node := addPod (mkNode "nA" "r1" "m4" 4 16 1 true) c1old true

/-- Empty existing worker. -/
def c1nB : Node := mkNode "nB" "r1" "m4" 4 16 1 true

/-- Plan whose only pod is the non-new `c1old` on `nA`. -/
def c1plan : Plan :=
  { nodes := [c1master, c1nA, c1nB],
    pod2node := [("default/old", "nA")] }

/-- Oracle: pick the `move` operator, the first mobile pod, and node `nB`
as the target. -/
def c1choices : Choices := { opIdx := 0, podIdx := 0, tgtIdx := 2 }

/-- The incremental-mode neighbour produced from `c1plan`. -/
def c1res : Option Plan := sANeighbor [] [] true c1plan [] c1choices

/-- The neighbour plan itself. -/
def c1outP : Plan := c1res.getD c1plan

/-- Snapshot input: one Ready node with recorded metadata. -/
def c2nodesIn : List NodeIn :=
  [{ name := "nA", ready := true, allocCpu := 4,
     allocMemKi := 16 * 1024 * 1024 }]

/-- Persisted `node_info` for the snapshot counterexample. -/
def c2info : List (String × String × String) := [("nA", "e2-small", "r1")]

/-- Requests map asking for 1 core and 1 GiB. -/
def reqOne : ResMap :=
  { cpu := some { v := 1, milli := false },
    mem := some { v := 1, unit := MemUnit.gi } }

/-- A Running pod in a non-default namespace, bound to `nA`. -/
def c2pod : PodIn :=
  { name := "sp", ns := "kube-system", phase := "Running",
    nodeName := some "nA",
    containers := [{ requests := some reqOne, limits := none }] }

/-- The snapshot of the counterexample cluster. -/
def c2snap : Plan := snapshotCluster c2nodesIn c2info [c2pod]

/-- Plan with a master node and one worker, for the energy counterexample. -/
def c3plan : Plan :=
  { nodes := [mkNode "master" "r0" "mm" 2 8 0 true,
              mkNode "w1" "r1" "m4" 4 16 1 false],
    pod2node := [] }

/-- Pod of the fit-existing failing input. -/
def c4pod : Pod := { name := "p", ns := "default", cpu := 1, mem := 1 }

/-- Node `A` of the failing input: `usable_cpu_cap = 9.85`,
`cpu_used = 8.5`, so `cpu_ratio_after = 0.035`. -/
def c4nodeA : Node :=
  { mkNode "A" "r1" "m10" 10 10 1 false with cpu_used := 17/2, mem_used := 1 }

/-- Node `B` of the failing input: `cpu_used = 7`, so
`cpu_ratio_after = 0.185`. -/
def c4nodeB : Node :=
  { mkNode "B" "r1" "m10" 10 10 1 false with cpu_used := 7, mem_used := 1 }

/-- The failing input plan, iterated in the order `A`, `B`. -/
def c4plan : Plan := { nodes := [c4nodeA, c4nodeB], pod2node := [] }

/-- The composite key `(cpu_ratio_after, suit)` the spec prescribes,
primary component. -/
def specFitRatio (nd : Node) (p : Pod) : ℚ :=
  (nd.usable_cpu_cap - nd.cpu_used - p.cpu) / nd.cpu_cap

/-- Creation oracle for the fallback witness: every region fails with a
non-quota error. -/
def c6createBoom : CreateFn := fun _ _ _ => Except.error "boom"

/-- Price map for the fallback witness. -/
def c6pm : PriceMap := [("r1", [("m", 1)]), ("r2", [("m", 1)])]

/-- Planned node for the fallback witness. -/
def c6nd : Node := mkNode "n-x" "r1" "m" 4 16 1 false

/-- Worker-only plan used by the cooldown counterexample (its energy is
2.9, so the full/incremental ratio is ≈ 1 and the full plan is rejected). -/
def c7plan : Plan :=
  { nodes := [mkNode "w1" "r1" "m4" 4 16 1 false], pod2node := [] }

/-- Initial scheduler state (`last_full_ts = 0`). -/
def c7s0 : SchedState := { lastFullTs := 0 }

/-- First cycle: starts at `t = 1000`, runs full mode, rejects the full
plan. -/
def c7c1 : CycleIn :=
  { now := 1000, hasPending := true, incPlan := c7plan, fullPlan := c7plan,
    applyTime := 1001 }

/-- Second cycle: starts at `t = 1100`, within the 240 s cooldown of the
first full-mode run. -/
def c7c2 : CycleIn :=
  { now := 1100, hasPending := true, incPlan := c7plan, fullPlan := c7plan,
    applyTime := 1101 }

/-- Pod moved back and forth in the move-roundtrip witness. -/
def c8pod : Pod := { name := "p", ns := "default", cpu := 1, mem := 2 }

/-- Source node of the roundtrip witness. -/
def c8nodeA : Node := addPod (mkNode "A" "r1" "m4" 4 16 1 true) c8pod true

/-- Target node of the roundtrip witness. -/
def c8nodeB : Node := mkNode "B" "r1" "m4" 4 16 1 true

/-- Plan of the roundtrip witness. -/
def c8plan : Plan :=
  { nodes := [c8nodeA, c8nodeB], pod2node := [("default/p", "A")] }

/-- Limits map granting 2 cores and 1 GiB. -/
def limTwo : ResMap :=
  { cpu := some { v := 2, milli := false },
    mem := some { v := 1, unit := MemUnit.gi } }

/-- A container whose cpu limit (2) exceeds its cpu request (1). -/
def c9c : Container := { requests := some reqOne, limits := some limTwo }

/-- Containers whose cpu limit (2) exceeds the cpu request (1). -/
def c9cs : List Container := [c9c]

/-- Node for the `rm_pod` witness: `cpu_used = 1`. -/
def c10node : Node :=
  { mkNode "n" "r1" "m4" 4 16 1 true with cpu_used := 1, mem_used := 1 }

/-- A pod that is not resident on `c10node` and asks for more CPU than is
accounted there. -/
def c10pod : Pod := { name := "big", ns := "default", cpu := 2, mem := 1 }

/-- Pending pod of the constraints witness. -/
def c5pod : Pod :=
  { name := "q", ns := "default", cpu := 1, mem := 1, is_new := true }

/-- Input plan of the constraints witness. -/
def c5plan : Plan :=
  { nodes := [c1master, c1nA, c1nB],
    pod2node := [("default/old", "nA")] }

/-- The empty plan (energy 0.4: only the concentration fallback term). -/
def emptyPlan : Plan := { nodes := [], pod2node := [] }

/-- A cycle whose full plan is accepted (`E_full/E_inc ≈ 0.14 ≤ 0.95`). -/
def c7cF : CycleIn :=
  { now := 1000, hasPending := true, incPlan := c7plan,
    fullPlan := emptyPlan, applyTime := 1001 }

/-- A Running pod in the default namespace, bound to `nA`. -/
def c2podD : PodIn :=
  { name := "sp2", ns := "default", phase := "Running",
    nodeName := some "nA",
    containers := [{ requests := some reqOne, limits := none }] }

/-- The `Pod` value `snapshot_cluster` builds from `c2podD`. -/
def c2podDPod : Pod := { name := "sp2", ns := "default", cpu := 1, mem := 1 }

/-- Snapshot containing one recorded default-namespace pod. -/
def c2snapD : Plan := snapshotCluster c2nodesIn c2info [c2podD]

/-- The node value holding `c2podDPod` inside `c2snapD`. -/
def c2ndD : Node := addPod (mkNode "nA" "r1" "e2-small" 4 16 0 true) c2podDPod true

/-! # Theorems -/

theorem filter_workerExt_idem (l : List Node) :
    (l.filter workerExt).filter workerExt = l.filter workerExt := by
  rw [List.filter_filter]
  simp

/-- C3 counterexample: `energy` does NOT ignore `master` and `node-1`.  On a
plan holding a master node (region `r0`) and one worker (region `r1`), the
region-concentration histogram counts the master, giving `conc = 2` instead
of `1`; the total energy changes from 2.9 to 2.5 when the special nodes are
removed, refuting the claim that every term of the energy ranges only over
non-`master`/`node-1` nodes. -/
theorem c3_energy_counterexample :
    energy c3plan ≠ energy (removeSpecial c3plan) := by decide

/-- C3 amended: the price sum, the idle-CPU sum and the node count of
`energy` are invariant under removing the `master` and `node-1` entries —
only the region-concentration term ranges over all nodes of the plan. -/
theorem c3_energy_terms_amended (plan : Plan) :
    energy plan - (2 / 5) * concSum plan =
      energy (removeSpecial plan) - (2 / 5) * concSum (removeSpecial plan) := by
  have hc : costSum (removeSpecial plan) = costSum plan := by
    simp [costSum, removeSpecial, filter_workerExt_idem]
  have hi : idleSum (removeSpecial plan) = idleSum plan := by
    simp [idleSum, removeSpecial, filter_workerExt_idem]
  have ht : totalWorkers (removeSpecial plan) = totalWorkers plan := by
    simp [totalWorkers, removeSpecial, filter_workerExt_idem]
  simp [energy, hc, hi, ht]
  ring

/-- C10 confirmed: `Node.rm_pod` subtracts the pod's demand without checking
residency, so removing a pod that is not on the node drives `cpu_used`
negative whenever the pod's cpu exceeds the node's accounted cpu. -/
theorem c10_rm_pod_negative (nd : Node) (p : Pod)
    (hres : ∀ q ∈ nd.pods, q.fullName ≠ p.fullName)
    (hcpu : nd.cpu_used < p.cpu) :
    (rmPod nd p).cpu_used < 0 := by
  simp only [rmPod]
  linarith

/-- C10 witness: a node with `cpu_used = 1`, no resident pods, and a
non-resident pod of cpu 2 ends at `cpu_used = -1 < 0`. -/
theorem c10_rm_pod_negative_witness : (rmPod c10node c10pod).cpu_used < 0 :=
  c10_rm_pod_negative c10node c10pod (by decide) (by decide)

/-- C4 failing input (code bug): `_fit_existing` stores
`(cpu_left, suit, node)` in `best` but compares the candidate key
`(cpu_ratio, suit)` against `best[:2]`, i.e. a ratio against an absolute
cpu amount.  On the plan `[A, B]` with `cpu_ratio_after(A) = 0.035 <
0.185 = cpu_ratio_after(B)` (both fitting, non-master), the code places the
pod on `B`, not on the key-minimizing node `A`. -/
theorem c4_fit_existing_code_bug :
    (fitExisting c4plan c4pod).1 = true ∧
    List.lookup (Pod.fullName c4pod)
      (fitExisting c4plan c4pod).2.pod2node = some "B" ∧
    canFit c4nodeA c4pod = true ∧ c4nodeA.name ≠ "master" ∧
    specFitRatio c4nodeA c4pod < specFitRatio c4nodeB c4pod := by decide

theorem foldl_add_eq_sum (f : Container → ℚ) (cs : List Container) (a : ℚ) :
    cs.foldl (fun acc c => acc + f c) a = a + (cs.map f).sum := by
  induction cs generalizing a with
  | nil => simp
  | cons c cs ih =>
      simp only [List.foldl_cons, List.map_cons, List.sum_cons, ih]
      ring

theorem pendingCpuOf_eq_snapReq (c : Container) :
    pendingCpuOf c = snapReqCpuOf c := by
  cases hc : c.requests <;>
    simp [pendingCpuOf, snapReqCpuOf, parseCpu, cpuZero, hc]

theorem pendingMemOf_eq_snapReq (c : Container) :
    pendingMemOf c = snapReqMemOf c := by
  cases hc : c.requests <;>
    simp [pendingMemOf, snapReqMemOf, parseMem, memZero, hc]

/-- C9 confirmed: the pending-list demand sums container requests only
(missing requests count 0, limits ignored), the snapshot demand sums the
per-container `max(request, limit)`; hence the pending path never exceeds
the snapshot path and is strictly smaller as soon as one container's limit
exceeds its request. -/
theorem c9_pending_vs_snapshot_demand (cs : List Container) :
    pendingPodCpu cs ≤ snapPodCpu cs ∧ pendingPodMem cs ≤ snapPodMem cs ∧
    ((∃ c ∈ cs, snapReqCpuOf c < snapLimCpuOf c) →
      pendingPodCpu cs < snapPodCpu cs) ∧
    ((∃ c ∈ cs, snapReqMemOf c < snapLimMemOf c) →
      pendingPodMem cs < snapPodMem cs) := by
  have hpc : pendingPodCpu cs = (cs.map pendingCpuOf).sum := by
    simpa using foldl_add_eq_sum pendingCpuOf cs 0
  have hpm : pendingPodMem cs = (cs.map pendingMemOf).sum := by
    simpa using foldl_add_eq_sum pendingMemOf cs 0
  have hsc : snapPodCpu cs =
      (cs.map (fun c => max (snapReqCpuOf c) (snapLimCpuOf c))).sum := by
    simpa using
      foldl_add_eq_sum (fun c => max (snapReqCpuOf c) (snapLimCpuOf c)) cs 0
  have hsm : snapPodMem cs =
      (cs.map (fun c => max (snapReqMemOf c) (snapLimMemOf c))).sum := by
    simpa using
      foldl_add_eq_sum (fun c => max (snapReqMemOf c) (snapLimMemOf c)) cs 0
  refine ⟨?_, ?_, ?_, ?_⟩
  · rw [hpc, hsc]
    have h : ∀ c ∈ cs, pendingCpuOf c ≤
        max (snapReqCpuOf c) (snapLimCpuOf c) := by
      intro c _
      rw [pendingCpuOf_eq_snapReq]
      exact le_max_left _ _
    exact List.sum_le_sum h
  · rw [hpm, hsm]
    have h : ∀ c ∈ cs, pendingMemOf c ≤
        max (snapReqMemOf c) (snapLimMemOf c) := by
      intro c _
      rw [pendingMemOf_eq_snapReq]
      exact le_max_left _ _
    exact List.sum_le_sum h
  · rintro ⟨c, hms, hlt⟩
    rw [hpc, hsc]
    refine List.sum_lt_sum _ _ (fun x _ => ?_) ⟨c, hms, ?_⟩
    · rw [pendingCpuOf_eq_snapReq]; exact le_max_left _ _
    · rw [pendingCpuOf_eq_snapReq]
      exact lt_of_lt_of_le hlt (le_max_right _ _)
  · rintro ⟨c, hms, hlt⟩
    rw [hpm, hsm]
    refine List.sum_lt_sum _ _ (fun x _ => ?_) ⟨c, hms, ?_⟩
    · rw [pendingMemOf_eq_snapReq]; exact le_max_left _ _
    · rw [pendingMemOf_eq_snapReq]
      exact lt_of_lt_of_le hlt (le_max_right _ _)

/-- C9 witness: a single container requesting 1 cpu with a limit of 2 gets
pending demand 1 but snapshot demand 2. -/
theorem c9_pending_vs_snapshot_demand_witness :
    pendingPodCpu c9cs < snapPodCpu c9cs :=
  (c9_pending_vs_snapshot_demand c9cs).2.2.1 ⟨c9c, by decide, by decide⟩

/-- C7 counterexample: a cycle at `t = 1000` runs full-mode SA but its full
plan is rejected (ratio ≈ 1 > 0.95), so `last_full_ts` stays 0 and the next
cycle at `t = 1100 < 1000 + 240` runs full-mode SA again — two full-mode
optimizations closer than `cooldown_sec`, refuting the claim as stated. -/
theorem c7_cooldown_counterexample :
    (runOnce 240 c7s0 c7c1).2.ranFull = true ∧
    (runOnce 240 (runOnce 240 c7s0 c7c1).1 c7c2).2.ranFull = true ∧
    c7c2.now < c7c1.now + 240 := by decide

/-- C7 amended: full-mode SA runs only when `now - last_full_ts ≥ cooldown`,
and `last_full_ts` is advanced (to the post-apply clock) only in cycles that
ADOPT the full plan; consequently the cooldown separates a cycle that adopts
the full plan from the next full-mode run, while a rejected full-mode run
leaves `last_full_ts` unchanged and permits another full run sooner. -/
theorem c7_cooldown_amended (cooldown : ℚ) (s : SchedState) (c c2 : CycleIn) :
    ((runOnce cooldown s c).2.ranFull = true →
      cooldown ≤ c.now - s.lastFullTs) ∧
    ((runOnce cooldown s c).2.choseFull = true →
      (runOnce cooldown s c).1.lastFullTs = c.applyTime) ∧
    ((runOnce cooldown s c).2.choseFull = false →
      (runOnce cooldown s c).1 = s) ∧
    ((runOnce cooldown s c).2.choseFull = true →
      c2.now < c.applyTime + cooldown →
      (runOnce cooldown (runOnce cooldown s c).1 c2).2.ranFull = false) := by
  unfold runOnce
  split_ifs with h1 h2 h3 h4 h5 h6 h7 h8 h9 <;>
    simp_all <;> linarith

/-- C7 witness: a cycle at `t = 1000` that adopts its full plan pushes
`last_full_ts` to 1001, and the next cycle at `t = 1100 < 1001 + 240` does
not run full-mode SA. -/
theorem c7_cooldown_amended_witness :
    (runOnce 240 (runOnce 240 c7s0 c7cF).1 c7c2).2.ranFull = false :=
  (c7_cooldown_amended 240 c7s0 c7cF c7c2).2.2.2 (by decide) (by decide)

theorem lookup_cons_pair (k a b : String) (m : List (String × String)) :
    List.lookup k ((a, b) :: m) =
      if k = a then some b else List.lookup k m := by
  simp only [List.lookup]
  cases h : (k == a) with
  | true =>
      have he : k = a := eq_of_beq h
      simp [he]
  | false =>
      have he : k ≠ a := ne_of_beq_false h
      simp [he]

theorem lookup_filter_ne (m : List (String × String)) (k f : String)
    (h : k ≠ f) :
    List.lookup k (m.filter (fun e => e.1 ≠ f)) = List.lookup k m := by
  induction m with
  | nil => rfl
  | cons e m ih =>
      obtain ⟨a, b⟩ := e
      rw [List.filter_cons]
      by_cases hef : a = f
      · have hd : (decide ((a, b).1 ≠ f)) = false := by simp [hef]
        rw [hd]
        simp only [Bool.false_eq_true, if_false]
        rw [ih, lookup_cons_pair]
        have hka : k ≠ a := fun he => h (he.trans hef)
        simp [hka]
      · have hd : (decide ((a, b).1 ≠ f)) = true := by simp [hef]
        rw [hd]
        simp only [if_true]
        rw [lookup_cons_pair, lookup_cons_pair, ih]

theorem lookup_insertPN (m : List (String × String)) (k f v : String) :
    List.lookup k (insertPN f v m) =
      if k = f then some v else List.lookup k m := by
  unfold insertPN
  rw [lookup_cons_pair]
  by_cases h : k = f
  · simp [h]
  · simp only [h, if_false]
    exact lookup_filter_ne m k f h

theorem snapshotStep_forward (st : Plan) (pin : PodIn)
    (h1 : ForwardConsistent st)
    (h2 : NoResident st pin.fullName) :
    ForwardConsistent (snapshotStep st pin) := by
  have hfull : (podOfPin pin).fullName = pin.fullName := rfl
  unfold snapshotStep
  split
  · split
    · split
      · split
        · split
          · -- the add branch
            rename_i sc1 nname hname0 sc2 nd0 hfind hfit
            intro ndx hnd' q hq
            simp only [updateNodes, List.mem_map] at hnd'
            obtain ⟨nd, hnd, hEq⟩ := hnd'
            subst hEq
            by_cases hname : nd.name = nname
            · simp only [hname, if_true] at hq ⊢
              simp only [addPod] at hq ⊢
              by_cases hrec : decide (pin.ns = "default") = true
              · simp only [hrec, if_true, List.mem_append,
                  List.mem_filter, List.mem_singleton] at hq
                rcases hq with ⟨hqm, hqne⟩ | rfl
                · rw [hfull, lookup_insertPN]
                  have hx : q.fullName ≠ pin.fullName := h2 nd hnd q hqm
                  simp only [hx, if_false]
                  simpa [hname] using h1 nd hnd q hqm
                · rw [hfull, lookup_insertPN]
                  simp [hfull, hname]
              · simp only [Bool.not_eq_true] at hrec
                simp only [hrec, Bool.false_eq_true, if_false] at hq
                rw [hfull, lookup_insertPN]
                have hx : q.fullName ≠ pin.fullName := h2 nd hnd q hq
                simp only [hx, if_false]
                simpa [hname] using h1 nd hnd q hq
            · simp only [hname, if_false] at hq ⊢
              rw [hfull, lookup_insertPN]
              have hx : q.fullName ≠ pin.fullName := h2 nd hnd q hq
              simp only [hx, if_false]
              exact h1 nd hnd q hq
          · exact h1
        · exact h1
      · exact h1
    · exact h1
  · exact h1

theorem snapshotStep_resident (st : Plan) (pin : PodIn) (f : String)
    (h : NoResident st f) (hne : pin.fullName ≠ f) :
    NoResident (snapshotStep st pin) f := by
  unfold snapshotStep
  split
  · split
    · split
      · split
        · split
          · rename_i sc1 nname hname0 sc2 nd0 hfind hfit
            intro ndx hnd' q hq
            simp only [updateNodes, List.mem_map] at hnd'
            obtain ⟨nd, hnd, hEq⟩ := hnd'
            subst hEq
            by_cases hname : nd.name = nname
            · simp only [hname, if_true, addPod] at hq
              by_cases hrec : decide (pin.ns = "default") = true
              · simp only [hrec, if_true, List.mem_append,
                  List.mem_filter, List.mem_singleton] at hq
                rcases hq with ⟨hqm, _⟩ | rfl
                · exact h nd hnd q hqm
                · exact hne
              · simp only [Bool.not_eq_true] at hrec
                simp only [hrec, Bool.false_eq_true, if_false] at hq
                exact h nd hnd q hq
            · simp only [hname, if_false] at hq
              exact h nd hnd q hq
          · exact h
        · exact h
      · exact h
    · exact h
  · exact h

theorem snapshot_foldl_forward (pods : List PodIn) :
    ∀ st : Plan, ForwardConsistent st →
      (∀ pin ∈ pods, NoResident st pin.fullName) →
      (pods.map PodIn.fullName).Nodup →
      ForwardConsistent (pods.foldl snapshotStep st) := by
  induction pods with
  | nil => intro st h1 _ _; simpa using h1
  | cons pin pods ih =>
      intro st h1 h2 h3
      simp only [List.foldl_cons]
      have hhead : NoResident st pin.fullName := h2 pin (by simp)
      refine ih (snapshotStep st pin)
        (snapshotStep_forward st pin h1 hhead) ?_ ?_
      · intro pin' hpin'
        refine snapshotStep_resident st pin pin'.fullName
          (h2 pin' (by simp [hpin'])) ?_
        simp only [List.map_cons, List.nodup_cons] at h3
        intro hEq
        exact h3.1 (hEq ▸ List.mem_map_of_mem PodIn.fullName hpin')
      · simp only [List.map_cons, List.nodup_cons] at h3
        exact h3.2

/-- C2 counterexample: after `snapshot_cluster` on a cluster with one Ready
recorded node and one Running pod in the `kube-system` namespace, the pod
appears in `pod2node` (mapped to `nA`) while every resident list is empty —
the referenced node does not list the pod exactly once, refuting the
bidirectional-consistency claim. -/
theorem c2_consistency_counterexample :
    List.lookup "kube-system/sp" c2snap.pod2node = some "nA" ∧
    c2snap.nodes.all (fun nd => nd.pods.isEmpty) = true := by decide

/-- C2 amended: after `snapshot_cluster` (on pods with pairwise-distinct
full names, as the cluster API guarantees) the FORWARD direction holds: every
pod in a node's resident list is mapped by `pod2node` to that node.  The
reverse direction fails: Running pods outside the `default` namespace are
entered in `pod2node` with `record=False` and never appear in a resident
list (and `_reuse_nodes` rebinds pods by mutating the previous plan's node
objects, so the rebound pods are likewise missing from the new plan's
resident lists). -/
theorem c2_snapshot_forward_amended (nodesIn : List NodeIn)
    (nodeInfo : List (String × String × String)) (podsIn : List PodIn)
    (h : (podsIn.map PodIn.fullName).Nodup) :
    ForwardConsistent (snapshotCluster nodesIn nodeInfo podsIn) := by
  unfold snapshotCluster
  refine snapshot_foldl_forward podsIn _ ?_ ?_ h
  · intro nd hnd q hq
    exfalso
    simp only [buildSnapshotNodes, List.mem_filterMap] at hnd
    obtain ⟨n, _, hsome⟩ := hnd
    split at hsome
    · split at hsome
      · simp only [Option.some_inj] at hsome
        rw [← hsome] at hq
        simp [mkNode] at hq
      · exact Option.noConfusion hsome
    · exact Option.noConfusion hsome
  · intro pin _ nd hnd q hq
    exfalso
    simp only [buildSnapshotNodes, List.mem_filterMap] at hnd
    obtain ⟨n, _, hsome⟩ := hnd
    split at hsome
    · split at hsome
      · simp only [Option.some_inj] at hsome
        rw [← hsome] at hq
        simp [mkNode] at hq
      · exact Option.noConfusion hsome
    · exact Option.noConfusion hsome

/-- C2 witness: a default-namespace Running pod recorded on `nA` is mapped
back to `nA` by `pod2node`. -/
theorem c2_snapshot_forward_amended_witness :
    List.lookup (Pod.fullName c2podDPod) c2snapD.pod2node =
      some c2ndD.name :=
  c2_snapshot_forward_amended c2nodesIn c2info [c2podD] (by decide)
    c2ndD (by decide) c2podDPod (by decide)

theorem forall2_map_self {Φ : Node → Node} (nds : List Node)
    (h : ∀ nd ∈ nds, NodeEquiv nd (Φ nd)) :
    List.Forall₂ NodeEquiv nds (nds.map Φ) := by
  induction nds with
  | nil => exact List.Forall₂.nil
  | cons x xs ih =>
      exact List.Forall₂.cons (h x (by simp))
        (ih (fun nd hnd => h nd (by simp [hnd])))

/-- C8 confirmed: `move_pod(p, A, B)` then `move_pod(p, B, A)` restores
every node's `cpu_used`/`mem_used`, every resident full-name set, and the
`pod2node` lookup table.  The hypotheses state the claim's scenario on a
consistency-respecting plan: `p` is resident on (the node named) `A`, is
mapped there by `pod2node`, is not resident on `B`; `B.can_fit(p)` and the
invariant `used ≤ cap` on `A` are the `add_pod` assertions of the two
moves. -/
theorem c8_move_pod_roundtrip (plan : Plan) (p : Pod) (a b : String)
    (hab : a ≠ b)
    (hA : ∀ nd ∈ plan.nodes, nd.name = a →
      p.fullName ∈ nd.pods.map Pod.fullName)
    (hB : ∀ nd ∈ plan.nodes, nd.name = b →
      p.fullName ∉ nd.pods.map Pod.fullName ∧ canFit nd p = true)
    (hP : List.lookup p.fullName plan.pod2node = some a)
    (hAcap : ∀ nd ∈ plan.nodes, nd.name = a →
      nd.cpu_used ≤ nd.usable_cpu_cap ∧ nd.mem_used ≤ nd.mem_cap) :
    PlanResourceEquiv plan (movePod (movePod plan p a b) p b a) := by
  constructor
  · show List.Forall₂ NodeEquiv plan.nodes _
    simp only [movePod, updateNodes, List.map_map]
    apply forall2_map_self
    intro nd hnd
    by_cases ha : nd.name = a
    · have hb : ¬ nd.name = b := fun hx => hab (ha.symm.trans hx)
      have hmem := hA nd hnd ha
      refine ⟨?_, ?_, ?_, ?_⟩ <;>
        simp only [Function.comp, rmPod, addPod, ha, hb, hab, if_true,
          if_false, ite_true, ite_false]
      · ring
      · ring
      · intro g
        simp only [List.map_append, List.mem_append, List.map_cons,
          List.map_nil, List.mem_singleton, List.mem_map, List.mem_filter,
          decide_eq_true_eq, ne_eq]
        constructor
        · rintro ⟨q, hq, rfl⟩
          by_cases hgf : q.fullName = p.fullName
          · right; exact hgf
          · exact Or.inl ⟨q, ⟨⟨hq, hgf⟩, hgf⟩, rfl⟩
        · rintro (⟨q, ⟨⟨hq, _⟩, _⟩, rfl⟩ | rfl)
          · exact ⟨q, hq, rfl⟩
          · simpa [List.mem_map] using hmem
    · by_cases hb : nd.name = b
      · have hba : ¬ b = a := fun hx => hab hx.symm
        have hnof := (hB nd hnd hb).1
        have hkeep : nd.pods.filter
            (fun q => q.fullName ≠ p.fullName) = nd.pods := by
          refine List.filter_eq_self.mpr (fun q hq => ?_)
          simp only [ne_eq, decide_eq_true_eq]
          intro hx
          exact hnof (hx ▸ List.mem_map_of_mem Pod.fullName hq)
        refine ⟨?_, ?_, ?_, ?_⟩ <;>
          simp only [Function.comp, rmPod, addPod, ha, hb, hba, if_true,
            if_false, ite_true, ite_false]
        · ring
        · ring
        · intro g
          simp [List.filter_append, hkeep]
          constructor
          · rintro ⟨q, hq, rfl⟩
            exact ⟨q, ⟨hq, fun hx =>
              hnof (hx ▸ List.mem_map_of_mem Pod.fullName hq)⟩, rfl⟩
          · rintro ⟨q, ⟨hq, _⟩, rfl⟩
            exact ⟨q, hq, rfl⟩
      · refine ⟨?_, ?_, ?_, ?_⟩ <;>
          simp [Function.comp, ha, hb]
  · intro k
    simp only [movePod]
    rw [lookup_insertPN, lookup_insertPN]
    by_cases hk : k = p.fullName
    · subst hk
      simp only [if_true, ite_true]
      exact hP
    · simp [hk]

/-- C8 witness: moving the pod from `A` to `B` and back on a concrete
two-node plan restores the plan's resources and mappings. -/
theorem c8_move_pod_roundtrip_witness :
    PlanResourceEquiv c8plan
      (movePod (movePod c8plan c8pod "A" "B") c8pod "B" "A") :=
  c8_move_pod_roundtrip c8plan c8pod "A" "B" (by decide) (by decide)
    (by decide) (by decide) (by decide)

theorem fallbackGo_ok (create : CreateFn) (nd : Node) :
    ∀ (cands : List String) (ndr : Node),
      fallbackGo create nd cands = Except.ok ndr →
      ∃ l1 r l2, cands = l1 ++ r :: l2 ∧
        (∀ r' ∈ l1, ∃ e, create nd.name r' nd.machine_type =
          Except.error e) ∧
        (∃ u, create nd.name r nd.machine_type = Except.ok u) ∧
        ndr = { nd with region := r } := by
  intro cands
  induction cands with
  | nil => intro ndr h; exact absurd h (by simp [fallbackGo])
  | cons r rest ih =>
      intro ndr h
      simp only [fallbackGo] at h
      cases hc : create nd.name r nd.machine_type with
      | ok u =>
          rw [hc] at h
          simp only [Except.ok.injEq] at h
          exact ⟨[], r, rest, rfl, by simp, ⟨u, hc⟩, h.symm⟩
      | error e =>
          rw [hc] at h
          obtain ⟨l1, r', l2, hEq, hfail, hok, hnd⟩ := ih ndr h
          refine ⟨r :: l1, r', l2, by simp [hEq], ?_, hok, hnd⟩
          intro x hx
          rcases List.mem_cons.mp hx with rfl | hx
          · exact ⟨e, hc⟩
          · exact hfail x hx

theorem fallbackGo_err (create : CreateFn) (nd : Node) :
    ∀ cands : List String,
      (∀ r ∈ cands, ∃ e, create nd.name r nd.machine_type =
        Except.error e) →
      ∃ e, fallbackGo create nd cands = Except.error e := by
  intro cands
  induction cands with
  | nil => intro _; exact ⟨_, rfl⟩
  | cons r rest ih =>
      intro h
      obtain ⟨e, he⟩ := h r (by simp)
      simp only [fallbackGo, he]
      exact ih (fun x hx => h x (by simp [hx]))

/-- C6 confirmed: `_try_create_with_fallback` (a) returns the node unchanged
when the planned region succeeds; (b) re-raises any non-quota error
unchanged; (c) on a quota/exhaustion error with no same-price region,
raises; (d) on success after fallback, the node's region is rewritten to the
first same-price candidate region (in `price_map` order) whose create
succeeded, all earlier candidates having failed; (e) if every same-price
candidate fails, raises. -/
theorem c6_create_fallback (create : CreateFn) (pm : PriceMap) (nd : Node) :
    (∀ u, create nd.name nd.region nd.machine_type = Except.ok u →
      tryCreateWithFallback create pm nd = Except.ok nd) ∧
    (∀ msg, create nd.name nd.region nd.machine_type = Except.error msg →
      quotaMarker msg = false →
      tryCreateWithFallback create pm nd = Except.error msg) ∧
    (∀ msg, create nd.name nd.region nd.machine_type = Except.error msg →
      quotaMarker msg = true → fallbackCands pm nd = [] →
      tryCreateWithFallback create pm nd =
        Except.error "no region with same price for fallback") ∧
    (∀ msg ndr, create nd.name nd.region nd.machine_type =
        Except.error msg →
      quotaMarker msg = true →
      tryCreateWithFallback create pm nd = Except.ok ndr →
      ∃ l1 r l2, fallbackCands pm nd = l1 ++ r :: l2 ∧
        (∀ r' ∈ l1, ∃ e, create nd.name r' nd.machine_type =
          Except.error e) ∧
        (∃ u, create nd.name r nd.machine_type = Except.ok u) ∧
        ndr = { nd with region := r }) ∧
    (∀ msg, create nd.name nd.region nd.machine_type = Except.error msg →
      quotaMarker msg = true →
      (∀ r ∈ fallbackCands pm nd, ∃ e, create nd.name r nd.machine_type =
        Except.error e) →
      ∃ e, tryCreateWithFallback create pm nd = Except.error e) := by
  refine ⟨?_, ?_, ?_, ?_, ?_⟩
  · intro u hu
    simp [tryCreateWithFallback, hu]
  · intro msg hmsg hq
    simp [tryCreateWithFallback, hmsg, hq]
  · intro msg hmsg hq hcands
    simp [tryCreateWithFallback, hmsg, hq, hcands]
  · intro msg ndr hmsg hq hok
    simp only [tryCreateWithFallback, hmsg, hq, Bool.not_true,
      Bool.false_eq_true, if_false] at hok
    by_cases hcands : (fallbackCands pm nd).isEmpty
    · rw [if_pos hcands] at hok
      exact absurd hok (by simp)
    · rw [if_neg hcands] at hok
      exact fallbackGo_ok create nd (fallbackCands pm nd) ndr hok
  · intro msg hmsg hq hfail
    by_cases hcands : (fallbackCands pm nd).isEmpty
    · exact ⟨"no region with same price for fallback",
        by simp [tryCreateWithFallback, hmsg, hq, hcands]⟩
    · obtain ⟨e, he⟩ := fallbackGo_err create nd (fallbackCands pm nd) hfail
      exact ⟨e, by simp [tryCreateWithFallback, hmsg, hq, hcands, he]⟩

/-- C6 witness: a non-quota provider error propagates unchanged. -/
theorem c6_create_fallback_witness :
    tryCreateWithFallback c6createBoom c6pm c6nd = Except.error "boom" :=
  (c6_create_fallback c6createBoom c6pm c6nd).2.1 "boom" rfl (by decide)

theorem mem_of_headOpt {α : Type} {l : List α} {a : α}
    (h : l.head? = some a) : a ∈ l := by
  cases l with
  | nil => simp at h
  | cons x xs =>
      simp only [List.head?_cons, Option.some_inj] at h
      simp [h]

theorem preserve_workers (g : Node → Node) (l : List Node)
    (hg : ∀ nd, (g nd).name = nd.name ∧ (g nd).cpu_cap = nd.cpu_cap) :
    ((l.map g).filter (fun nd => decide (nd.name ≠ "master"))).map
        (fun nd => nd.cpu_cap) =
      (l.filter (fun nd => decide (nd.name ≠ "master"))).map
        (fun nd => nd.cpu_cap) := by
  induction l with
  | nil => rfl
  | cons x xs ih =>
      simp only [List.map_cons, List.filter_cons, (hg x).1]
      cases hc : decide (x.name ≠ "master") with
      | false =>
          simp only [hc, Bool.false_eq_true, if_false]
          exact ih
      | true =>
          simp only [hc, if_true, List.map_cons, (hg x).2]
          rw [ih]

theorem preserve_countW (g : Node → Node) (l : List Node)
    (hg : ∀ nd, (g nd).name = nd.name ∧ (g nd).cpu_cap = nd.cpu_cap) :
    ((l.map g).filter (fun nd => decide (nd.name ≠ "master"))).length =
      (l.filter (fun nd => decide (nd.name ≠ "master"))).length := by
  have h := congrArg List.length (preserve_workers g l hg)
  simpa [List.length_map] using h

theorem map_name_eq (g : Node → Node) (hg : ∀ nd, (g nd).name = nd.name) :
    ∀ l : List Node,
      (l.map g).map (fun nd => nd.name) = l.map (fun nd => nd.name) := by
  intro l
  induction l with
  | nil => rfl
  | cons x xs ih => simp [hg x, ih]

theorem updateNodes_hg (t : String) (f : Node → Node)
    (hf : ∀ nd, (f nd).name = nd.name ∧ (f nd).cpu_cap = nd.cpu_cap) :
    ∀ nd : Node,
      ((fun x => if x.name = t then f x else x) nd).name = nd.name ∧
      ((fun x => if x.name = t then f x else x) nd).cpu_cap = nd.cpu_cap := by
  intro nd
  by_cases h : nd.name = t <;> simp [h, hf nd]

theorem addPod_pres (p : Pod) (rec : Bool) :
    ∀ nd : Node, (addPod nd p rec).name = nd.name ∧
      (addPod nd p rec).cpu_cap = nd.cpu_cap := by
  intro nd
  simp [addPod]

theorem rmPod_pres (p : Pod) :
    ∀ nd : Node, (rmPod nd p).name = nd.name ∧
      (rmPod nd p).cpu_cap = nd.cpu_cap := by
  intro nd
  simp [rmPod]

theorem normalize_fold_workers (entries : List (String × String)) :
    ∀ ns : List Node,
      (((entries.foldl (fun ns e =>
          ns.map (fun nd =>
            if nd.name = e.2 then nd
            else { nd with
              pods := nd.pods.filter (fun p => p.fullName ≠ e.1) }))
        ns).filter (fun nd => decide (nd.name ≠ "master"))).map
          (fun nd => nd.cpu_cap) =
        (ns.filter (fun nd => decide (nd.name ≠ "master"))).map
          (fun nd => nd.cpu_cap)) ∧
      ((entries.foldl (fun ns e =>
          ns.map (fun nd =>
            if nd.name = e.2 then nd
            else { nd with
              pods := nd.pods.filter (fun p => p.fullName ≠ e.1) }))
        ns).map (fun nd => nd.name) = ns.map (fun nd => nd.name)) := by
  induction entries with
  | nil => intro ns; exact ⟨rfl, rfl⟩
  | cons e es ih =>
      intro ns
      simp only [List.foldl_cons]
      have hg : ∀ nd : Node,
          ((fun nd => if nd.name = e.2 then nd
            else { nd with
              pods := nd.pods.filter (fun p => p.fullName ≠ e.1) }) nd).name
            = nd.name ∧
          ((fun nd => if nd.name = e.2 then nd
            else { nd with
              pods := nd.pods.filter (fun p => p.fullName ≠ e.1) }) nd).cpu_cap
            = nd.cpu_cap := by
        intro nd
        by_cases h : nd.name = e.2 <;> simp [h]
      refine ⟨?_, ?_⟩
      · rw [(ih _).1]
        exact preserve_workers _ ns hg
      · rw [(ih _).2]
        exact map_name_eq _ (fun nd => (hg nd).1) ns

theorem normalize_countW (q : Plan) :
    countWorkers (normalizePlan q) = countWorkers q := by
  unfold countWorkers normalizePlan
  have h := congrArg List.length (normalize_fold_workers q.pod2node q.nodes).1
  simpa [List.length_map] using h

theorem normalize_capSum (q : Plan) :
    cpuCapSum (normalizePlan q) = cpuCapSum q := by
  unfold cpuCapSum normalizePlan
  exact congrArg List.sum (normalize_fold_workers q.pod2node q.nodes).1

theorem normalize_names (q : Plan) :
    (normalizePlan q).nodes.map (fun nd => nd.name) =
      q.nodes.map (fun nd => nd.name) :=
  (normalize_fold_workers q.pod2node q.nodes).2

theorem constraintsOk_true {q : Plan} (h : constraintsOk q = true) :
    countWorkers q ≤ MAX_WORKER_NODES ∧ cpuCapSum q ≤ MAX_CLUSTER_CPU := by
  unfold constraintsOk at h
  split at h
  · exact absurd h (by simp)
  · rename_i hcount
    exact ⟨Nat.le_of_not_lt hcount, of_decide_eq_true h⟩

theorem finishMove_bounds {q P : Plan} (h : finishMove q = some P) :
    countWorkers P ≤ MAX_WORKER_NODES ∧ cpuCapSum P ≤ MAX_CLUSTER_CPU := by
  unfold finishMove at h
  by_cases hc : constraintsOk q
  · rw [if_pos hc] at h
    have hP : normalizePlan q = P := Option.some.inj h
    obtain ⟨h1, h2⟩ := constraintsOk_true hc
    rw [← hP]
    rw [normalize_countW, normalize_capSum]
    exact ⟨h1, h2⟩
  · rw [if_neg hc] at h
    exact Option.noConfusion h

theorem finishMove_names {q P : Plan} (h : finishMove q = some P) :
    P.nodes.map (fun nd => nd.name) = q.nodes.map (fun nd => nd.name) := by
  unfold finishMove at h
  by_cases hc : constraintsOk q
  · rw [if_pos hc] at h
    have hP : normalizePlan q = P := Option.some.inj h
    rw [← hP]
    exact normalize_names q
  · rw [if_neg hc] at h
    exact Option.noConfusion h

theorem moveBranch_bounds {plan : Plan} {e : List String} {ch : Choices}
    {P : Plan} (h : moveBranch plan e ch = some P) :
    countWorkers P ≤ MAX_WORKER_NODES ∧ cpuCapSum P ≤ MAX_CLUSTER_CPU := by
  simp only [moveBranch] at h
  repeat' split at h
  all_goals first
    | exact Option.noConfusion h
    | exact finishMove_bounds h

theorem swapBranch_bounds {plan : Plan} {e : List String} {ch : Choices}
    {P : Plan} (h : swapBranch plan e ch = some P) :
    countWorkers P ≤ MAX_WORKER_NODES ∧ cpuCapSum P ≤ MAX_CLUSTER_CPU := by
  simp only [swapBranch] at h
  repeat' split at h
  all_goals first
    | exact Option.noConfusion h
    | exact finishMove_bounds h

theorem closeBranch_bounds {inc : Bool} {plan : Plan} {ch : Choices}
    {P : Plan} (h : closeBranch inc plan ch = some P) :
    countWorkers P ≤ MAX_WORKER_NODES ∧ cpuCapSum P ≤ MAX_CLUSTER_CPU := by
  simp only [closeBranch] at h
  repeat' split at h
  all_goals first
    | exact Option.noConfusion h
    | exact finishMove_bounds h

theorem openBranch_bounds {sm : SpecMap} {pm : PriceMap} {plan : Plan}
    {pending : List Pod} {ch : Choices} {P : Plan}
    (h : openBranch sm pm plan pending ch = some P) :
    countWorkers P ≤ MAX_WORKER_NODES ∧ cpuCapSum P ≤ MAX_CLUSTER_CPU := by
  simp only [openBranch] at h
  repeat' split at h
  all_goals first
    | exact Option.noConfusion h
    | exact finishMove_bounds h

theorem upgradeBranch_bounds {sm : SpecMap} {pm : PriceMap} {inc : Bool}
    {plan : Plan} {ch : Choices} {P : Plan}
    (h : upgradeBranch sm pm inc plan ch = some P) :
    countWorkers P ≤ MAX_WORKER_NODES ∧ cpuCapSum P ≤ MAX_CLUSTER_CPU := by
  simp only [upgradeBranch] at h
  repeat' split at h
  all_goals first
    | exact Option.noConfusion h
    | exact finishMove_bounds h

theorem upgradeNewBranch_bounds {sm : SpecMap} {pm : PriceMap} {plan : Plan}
    {ch : Choices} {P : Plan}
    (h : upgradeNewBranch sm pm plan ch = some P) :
    countWorkers P ≤ MAX_WORKER_NODES ∧ cpuCapSum P ≤ MAX_CLUSTER_CPU := by
  simp only [upgradeNewBranch] at h
  repeat' split at h
  all_goals first
    | exact Option.noConfusion h
    | exact finishMove_bounds h

theorem sANeighbor_bounds {sm : SpecMap} {pm : PriceMap} {inc : Bool}
    {plan : Plan} {pending : List Pod} {ch : Choices} {P : Plan}
    (h : sANeighbor sm pm inc plan pending ch = some P) :
    countWorkers P ≤ MAX_WORKER_NODES ∧ cpuCapSum P ≤ MAX_CLUSTER_CPU := by
  simp only [sANeighbor] at h
  repeat' split at h
  all_goals first
    | exact Option.noConfusion h
    | exact moveBranch_bounds h
    | exact swapBranch_bounds h
    | exact closeBranch_bounds h
    | exact openBranch_bounds h
    | exact upgradeBranch_bounds h
    | exact upgradeNewBranch_bounds h

theorem sum_caps_sublist {l1 l2 : List Node} (h : List.Sublist l1 l2)
    (hn : ∀ nd ∈ l2, 0 ≤ nd.cpu_cap) :
    (l1.map (fun nd => nd.cpu_cap)).sum ≤
      (l2.map (fun nd => nd.cpu_cap)).sum := by
  induction h with
  | slnil => simp
  | cons a h ih =>
      simp only [List.map_cons, List.sum_cons]
      have h0 : 0 ≤ a.cpu_cap := hn a (by simp)
      have h1 := ih (fun nd hnd => hn nd (by simp [hnd]))
      linarith
  | cons₂ a h ih =>
      simp only [List.map_cons, List.sum_cons]
      have h1 := ih (fun nd hnd => hn nd (by simp [hnd]))
      linarith

theorem PlanCapsOk_updateNodes {plan : Plan} (t : String) (f : Node → Node)
    (m : List (String × String))
    (hf : ∀ nd, (f nd).name = nd.name ∧ (f nd).cpu_cap = nd.cpu_cap)
    (h : PlanCapsOk plan) :
    PlanCapsOk { nodes := updateNodes plan.nodes t f, pod2node := m } := by
  obtain ⟨h1, h2, h3⟩ := h
  have hg := updateNodes_hg t f hf
  refine ⟨?_, ?_, ?_⟩
  · unfold countWorkers at h1 ⊢
    unfold updateNodes
    rw [preserve_countW _ _ hg]
    exact h1
  · unfold cpuCapSum at h2 ⊢
    unfold updateNodes
    rw [preserve_workers _ _ hg]
    exact h2
  · intro nd hnd
    unfold updateNodes at hnd
    rcases List.mem_map.mp hnd with ⟨x, hx, rfl⟩
    rw [(hg x).2]
    exact h3 x hx

theorem fitExisting_inv (plan : Plan) (pod : Pod) (h : PlanCapsOk plan) :
    PlanCapsOk (fitExisting plan pod).2 := by
  unfold fitExisting
  cases hf : plan.nodes.foldl (fitStep pod) none with
  | none => simpa using h
  | some b =>
      exact PlanCapsOk_updateNodes b.nd.name _ _ (addPod_pres pod true) h

theorem PlanCapsOk_openNode {plan : Plan} {nd : Node}
    (m : List (String × String)) (h : PlanCapsOk plan)
    (hcount : countWorkers plan < MAX_WORKER_NODES)
    (hsum : cpuCapSum plan + nd.cpu_cap ≤ MAX_CLUSTER_CPU)
    (hcap : 0 ≤ nd.cpu_cap) :
    PlanCapsOk { nodes := openNodeList plan.nodes nd, pod2node := m } := by
  obtain ⟨h1, h2, h3⟩ := h
  have hsubl : List.Sublist
      (plan.nodes.filter (fun x => x.name ≠ nd.name)) plan.nodes :=
    List.filter_sublist plan.nodes
  have hsub : List.Sublist
      ((plan.nodes.filter (fun x => x.name ≠ nd.name)).filter
        (fun x => decide (x.name ≠ "master")))
      (plan.nodes.filter (fun x => decide (x.name ≠ "master"))) :=
    hsubl.filter _
  refine ⟨?_, ?_, ?_⟩
  · unfold countWorkers at hcount ⊢
    unfold openNodeList
    rw [List.filter_append, List.length_append]
    have hlen := hsub.length_le
    have hone : (List.filter (fun x => decide (x.name ≠ "master"))
        [nd]).length ≤ 1 := by
      simp only [List.filter]
      split <;> simp
    unfold MAX_WORKER_NODES at hcount ⊢
    omega
  · unfold cpuCapSum at hsum ⊢
    unfold openNodeList
    rw [List.filter_append, List.map_append, List.sum_append]
    have hsums := sum_caps_sublist hsub
      (fun x hx => h3 x (List.mem_of_mem_filter hx))
    have hlast : ((List.filter (fun x => decide (x.name ≠ "master"))
        [nd]).map (fun x => x.cpu_cap)).sum ≤ nd.cpu_cap := by
      simp only [List.filter]
      split <;> simp [hcap]
    unfold cpuCapSum at h2
    linarith
  · intro x hx
    unfold openNodeList at hx
    rcases List.mem_append.mp hx with hx | hx
    · exact h3 x (List.mem_of_mem_filter hx)
    · rcases List.mem_singleton.mp hx with rfl
      exact hcap

theorem rfsaCandidates_mem {sm : SpecMap} {pm : PriceMap} {curr : ℚ}
    {rho : QF} {nc nm : ℚ} {c : Cand} (hnc : 0 ≤ nc)
    (h : c ∈ rfsaCandidates sm pm curr rho nc nm) :
    curr + c.vcpu ≤ MAX_CLUSTER_CPU ∧ 0 ≤ c.vcpu := by
  unfold rfsaCandidates at h
  obtain ⟨rp, hrp, hc⟩ := List.mem_flatMap.mp h
  obtain ⟨mts, hmts, hf⟩ := List.mem_filterMap.mp hc
  dsimp only at hf
  repeat' split at hf
  all_goals try exact Option.noConfusion hf
  rename_i hc1 hc2 hc3 hc4
  obtain rfl := Option.some.inj hf
  refine ⟨?_, ?_⟩
  · exact le_of_not_lt hc3
  · have hd : DEFAULT_OVERHEAD_CPU = 15 / 100 := rfl
    rw [not_or] at hc1
    have h1 := hc1.1
    rw [not_lt] at h1
    rw [hd] at h1
    linarith

theorem rfsaOpenNewNode_spec {sm : SpecMap} {pm : PriceMap} {plan : Plan}
    {pod : Pod} {rand : Nat} {nd : Node} (hpod : 0 ≤ pod.cpu)
    (h : rfsaOpenNewNode sm pm plan pod rand = some nd) :
    countWorkers plan < MAX_WORKER_NODES ∧
    cpuCapSum plan + nd.cpu_cap ≤ MAX_CLUSTER_CPU ∧ 0 ≤ nd.cpu_cap := by
  simp only [rfsaOpenNewNode] at h
  split at h
  · exact Option.noConfusion h
  · rename_i hcount
    have hlt : countWorkers plan < MAX_WORKER_NODES :=
      Nat.lt_of_not_le hcount
    split at h
    · exact Option.noConfusion h
    · split at h
      · exact Option.noConfusion h
      · rename_i c hhead
        obtain rfl := Option.some.inj h
        have hmem0 := mem_of_headOpt hhead
        have hmem1 := (List.mem_insertionSort _).mp hmem0
        have hmem2 : c ∈ rfsaCandidates sm pm (cpuCapSum plan)
            (rhoOf pod.cpu pod.mem) pod.cpu pod.mem := by
          revert hmem1
          split <;> intro hmem1 <;> exact List.mem_of_mem_filter hmem1
        obtain ⟨hs, hcap⟩ := rfsaCandidates_mem hpod hmem2
        refine ⟨hlt, ?_, ?_⟩ <;> simp [mkNode, hs, hcap]

theorem rfsaStep_inv {sm : SpecMap} {pm : PriceMap}
    {st : Plan × List Pod × Nat} {pod : Pod} (h : PlanCapsOk st.1)
    (hpod : 0 ≤ pod.cpu) :
    PlanCapsOk (rfsaStep sm pm st pod).1 := by
  unfold rfsaStep
  dsimp only
  split
  · exact fitExisting_inv st.1 pod h
  · split
    · rename_i nd hnd
      obtain ⟨hc, hs, hcap⟩ := rfsaOpenNewNode_spec hpod hnd
      have hs2 : cpuCapSum st.1 + (addPod nd pod true).cpu_cap ≤
          MAX_CLUSTER_CPU := by
        simpa [addPod] using hs
      have hcap2 : 0 ≤ (addPod nd pod true).cpu_cap := by
        simpa [addPod] using hcap
      exact @PlanCapsOk_openNode st.1 (addPod nd pod true)
        (insertPN pod.fullName nd.name st.1.pod2node) h hc hs2 hcap2
    · exact h

theorem rfsa_foldl_inv (sm : SpecMap) (pm : PriceMap) :
    ∀ (pods : List Pod) (st : Plan × List Pod × Nat), PlanCapsOk st.1 →
      (∀ p ∈ pods, 0 ≤ p.cpu) →
      PlanCapsOk ((pods.foldl (rfsaStep sm pm) st).1) := by
  intro pods
  induction pods with
  | nil => intro st h _; simpa using h
  | cons p ps ih =>
      intro st h hp
      simp only [List.foldl_cons]
      exact ih _ (rfsaStep_inv h (hp p (by simp)))
        (fun q hq => hp q (by simp [hq]))

/-- C5 confirmed: starting from a plan within the hard constraints (with
nonnegative capacities and demands, as all live data satisfies), every plan
returned by `RFSAOptimizer.optimize` and every non-`None` neighbour plan
returned by `SAOptimizer._neighbor` — in either mode, under any random
draws — satisfies both the worker-count cap (6) and the cluster CPU cap
(30). -/
theorem c5_hard_constraints (sm : SpecMap) (pm : PriceMap) (plan : Plan)
    (pending : List Pod)
    (hW : countWorkers plan ≤ MAX_WORKER_NODES)
    (hC : cpuCapSum plan ≤ MAX_CLUSTER_CPU)
    (hcaps : ∀ nd ∈ plan.nodes, 0 ≤ nd.cpu_cap)
    (hpend : ∀ p ∈ pending, 0 ≤ p.cpu) :
    (countWorkers (rfsaOptimize sm pm plan pending).1 ≤ MAX_WORKER_NODES ∧
      cpuCapSum (rfsaOptimize sm pm plan pending).1 ≤ MAX_CLUSTER_CPU) ∧
    (∀ (incMode : Bool) (ch : Choices) (P : Plan),
      sANeighbor sm pm incMode plan pending ch = some P →
      countWorkers P ≤ MAX_WORKER_NODES ∧
        cpuCapSum P ≤ MAX_CLUSTER_CPU) := by
  constructor
  · unfold rfsaOptimize
    have hsorted : ∀ p ∈ sortPendingDesc pending, 0 ≤ p.cpu := by
      intro p hp
      unfold sortPendingDesc at hp
      exact hpend p ((List.mem_insertionSort _).mp hp)
    have hinv := rfsa_foldl_inv sm pm (sortPendingDesc pending)
      (plan, [], 0) ⟨hW, hC, hcaps⟩ hsorted
    exact ⟨hinv.1, hinv.2.1⟩
  · intro incMode ch P h
    exact sANeighbor_bounds h

/-- C5 witness: a three-node plan (8 worker vCPU) and one pending pod stay
within both caps through `rfsaOptimize`. -/
theorem c5_hard_constraints_witness :
    countWorkers (rfsaOptimize [] [] c5plan [c5pod]).1 ≤ MAX_WORKER_NODES :=
  (c5_hard_constraints [] [] c5plan [c5pod] (by decide) (by decide)
    (by decide) (by decide)).1.1

theorem updateNodes_names (l : List Node) (t : String) (f : Node → Node)
    (hf : ∀ nd, (f nd).name = nd.name) :
    (updateNodes l t f).map (fun nd => nd.name) =
      l.map (fun nd => nd.name) := by
  unfold updateNodes
  apply map_name_eq
  intro nd
  by_cases h : nd.name = t <;> simp [h, hf nd]

theorem updateNodes_names_add (l : List Node) (t : String) (p : Pod) :
    (updateNodes l t (fun nd => addPod nd p true)).map (fun nd => nd.name) =
      l.map (fun nd => nd.name) :=
  updateNodes_names l t _ (fun nd => (addPod_pres p true nd).1)

theorem updateNodes_names_rm (l : List Node) (t : String) (p : Pod) :
    (updateNodes l t (fun nd => rmPod nd p)).map (fun nd => nd.name) =
      l.map (fun nd => nd.name) :=
  updateNodes_names l t _ (fun nd => (rmPod_pres p nd).1)

theorem moveBranch_names {plan : Plan} {e : List String} {ch : Choices}
    {P : Plan} (h : moveBranch plan e ch = some P) :
    P.nodes.map (fun nd => nd.name) = plan.nodes.map (fun nd => nd.name) := by
  simp only [moveBranch] at h
  repeat' split at h
  all_goals try exact Option.noConfusion h
  rw [finishMove_names h, updateNodes_names_add, updateNodes_names_rm]

theorem swapBranch_names {plan : Plan} {e : List String} {ch : Choices}
    {P : Plan} (h : swapBranch plan e ch = some P) :
    P.nodes.map (fun nd => nd.name) = plan.nodes.map (fun nd => nd.name) := by
  simp only [swapBranch] at h
  repeat' split at h
  all_goals try exact Option.noConfusion h
  rw [finishMove_names h, updateNodes_names_add, updateNodes_names_add,
    updateNodes_names_rm, updateNodes_names_rm]

theorem openNodeList_names_sup (l : List Node) (nd : Node) (x : String)
    (hx : x ∈ l.map (fun n => n.name)) :
    x ∈ (openNodeList l nd).map (fun n => n.name) := by
  unfold openNodeList
  rw [List.map_append, List.mem_append]
  by_cases hxn : x = nd.name
  · right
    simp [hxn]
  · left
    rcases List.mem_map.mp hx with ⟨y, hy, rfl⟩
    refine List.mem_map_of_mem _ (List.mem_filter.mpr ⟨hy, ?_⟩)
    simp [hxn]

theorem openBranch_names {sm : SpecMap} {pm : PriceMap} {plan : Plan}
    {pending : List Pod} {ch : Choices} {P : Plan}
    (h : openBranch sm pm plan pending ch = some P) :
    ∀ x ∈ plan.nodes.map (fun nd => nd.name),
      x ∈ P.nodes.map (fun nd => nd.name) := by
  simp only [openBranch] at h
  repeat' split at h
  all_goals try exact Option.noConfusion h
  intro x hx
  rw [finishMove_names h]
  exact openNodeList_names_sup _ _ _ hx

/-- C1 counterexample: in incremental mode the mobile-pod restriction is
overridden.  On `c1plan` the only pod has `is_new = false` (the
incremental mobile set computed before the override is empty), yet the
incremental-mode `_neighbor` relocates it from `nA` to `nB`, refuting the
claim that only `is_new` pods are mobile in incremental mode. -/
theorem c1_incremental_mobility_counterexample :
    expPodsIncremental c1plan = [] ∧
    c1old.is_new = false ∧
    c1res = some c1outP ∧
    List.lookup "default/old" c1plan.pod2node = some "nA" ∧
    List.lookup "default/old" c1outP.pod2node = some "nB" := by decide

/-- C1 amended: in incremental mode the destructive moves stay disabled —
the `close` and `upgrade` branches return `None` through their in-branch
guards, and consequently no node of the input plan disappears from any
produced neighbour (the effective operators are only `move`, `swap` and
`open`) — but the mobility restriction is overridden: the effective mobile
set is every pod on a non-master node, so pods with `is_new = false` can be
relocated (see the counterexample). -/
theorem c1_incremental_override_amended (sm : SpecMap) (pm : PriceMap)
    (plan : Plan) (pending : List Pod) (ch : Choices) (P : Plan)
    (h : sANeighbor sm pm true plan pending ch = some P) :
    closeBranch true plan ch = none ∧
    upgradeBranch sm pm true plan ch = none ∧
    ∀ x ∈ plan.nodes.map (fun nd => nd.name),
      x ∈ P.nodes.map (fun nd => nd.name) := by
  refine ⟨rfl, rfl, ?_⟩
  simp only [sANeighbor] at h
  split at h
  · exact Option.noConfusion h
  · split at h
    · exact Option.noConfusion h
    · rename_i op hop
      have hopmem : op ∈ allowedOpsOverride := by
        unfold pick at hop
        exact List.get?_mem hop
      simp only [allowedOpsOverride, List.mem_cons,
        List.not_mem_nil, or_false] at hopmem
      rcases hopmem with rfl | rfl | rfl | rfl | rfl | rfl
      · rw [if_pos rfl] at h
        intro x hx
        rw [moveBranch_names h]
        exact hx
      · rw [if_neg (by decide), if_pos rfl] at h
        split at h
        · intro x hx
          rw [swapBranch_names h]
          exact hx
        · exact Option.noConfusion h
      · rw [if_neg (by decide), if_neg (by decide), if_pos rfl] at h
        exact Option.noConfusion
          ((show closeBranch true plan ch = none from rfl) ▸ h)
      · rw [if_neg (by decide), if_neg (by decide), if_neg (by decide),
          if_pos rfl] at h
        exact openBranch_names h
      · rw [if_neg (by decide), if_neg (by decide), if_neg (by decide),
          if_neg (by decide), if_pos rfl] at h
        exact Option.noConfusion
          ((show upgradeBranch sm pm true plan ch = none from rfl) ▸ h)
      · rw [if_neg (by decide), if_neg (by decide), if_neg (by decide),
          if_neg (by decide), if_pos rfl] at h
        exact Option.noConfusion
          ((show upgradeBranch sm pm true plan ch = none from rfl) ▸ h)

/-- C1 witness: the incremental neighbour of `c1plan` keeps node `nA`. -/
theorem c1_incremental_override_amended_witness :
    "nA" ∈ c1outP.nodes.map (fun nd => nd.name) :=
  (c1_incremental_override_amended [] [] c1plan [] c1choices c1outP
    (by decide)).2.2 "nA" (by decide)

end Sched
